import Mathlib

/-!
Verification development for `cvsweb-extract.py`, a crawler that mirrors a
CVSweb installation surviving inside a web archive's replay service.

Modelling conventions (shallow embedding):
* Pure string manipulation from the source (the Wayback URL rewrite, filename
  sanitisation, percent-quoting of path segments, the local-root name
  derivation, URL assembly) is embedded concretely.  All character-level
  operations are defined over `String.data : List Char` so that every
  definition evaluates inside the kernel.
* External collaborators (HTTP transport, `BeautifulSoup` DOM extraction,
  `urllib.parse.urljoin` / `unquote`, and filesystem success or failure of
  `os.makedirs` / `open(..., 'wb')`) are an explicit oracle structure `Env`.
  A listing page is modelled at the level the source consumes it: an optional
  `<menu>` with a list of icon entries, each carrying the icon's `alt` text,
  the resolved name-link `href` (the source's sibling resolution collapsed
  into an `Option`), and the optional bold revision text.
* The filesystem is a pure state: an association list for files (first match
  wins, writes prepend) and a list of created directories stored with
  trailing slashes stripped (the OS resolves `d/` and `d` to the same
  directory).  A zero-byte file and an absent file both fail the source's
  `exists and getsize > 0` test, which is what the model's `truthyS` check
  expresses.
* Python truthiness of `response`/bytes/str values is modelled by `truthyS`:
  `None` and the empty string are falsy.
* The `while queue` loop of `fetch_latest_snapshot` need not terminate for an
  adversarial page oracle, so the loop takes explicit fuel and returns `none`
  when the fuel runs out (or when the run aborts while creating the root
  output directory, the only fatal condition in the source).
* Ghost fields (`fetched`, `fpaths`, `writes`, `dlAttempts`) record the
  observable events (listing fetches, processed file entries, performed
  writes, attempted download strategies) that the claims quantify over; they
  influence nothing.
* Python's `str.upper`/`str.lower` and the regex class `\d` are modelled at
  ASCII level (`Char.toUpper`, `Char.isDigit`), adequate for the URL and
  listing vocabulary of this program.
-/

namespace CvswebExtract

/-! ## Character-level string helpers (kernel-computable) -/

/-- Strip a literal from the front of a character list; `none` when the list
does not start with the literal. -/
def stripLit : List Char → List Char → Option (List Char)
  | [], s => some s
  | c :: cs, d :: ds => if c = d then stripLit cs ds else none
  | _ :: _, [] => none

/-- Python `s.split(sep)` for a non-empty `sep`, with explicit fuel (always
called with enough fuel). -/
def splitAux (sep : List Char) : Nat → List Char → List Char → List (List Char)
  | 0, l, acc => [acc.reverse ++ l]
  | _ + 1, [], acc => [acc.reverse]
  | fuel + 1, c :: rest, acc =>
    match stripLit sep (c :: rest) with
    | some rem => acc.reverse :: splitAux sep fuel rem []
    | none => splitAux sep fuel rest (c :: acc)

/-- Python `s.split(sep)`. -/
def sSplitOn (sep s : String) : List String :=
  (splitAux sep.data (s.data.length + 1) s.data []).map (fun l => ⟨l⟩)

/-- Python `"/".join(xs)`-style joining. -/
def sIntercalate (sep : String) : List String → String
  | [] => ""
  | [x] => x
  | x :: y :: rest => x ++ sep ++ sIntercalate sep (y :: rest)

/-- Map a function over the characters of a string. -/
def sMap (f : Char → Char) (s : String) : String := ⟨s.data.map f⟩

/-- Python `s.upper()` (ASCII). -/
def sUpper (s : String) : String := sMap Char.toUpper s

/-- Python `s.lower()` (ASCII). -/
def sLower (s : String) : String := sMap Char.toLower s

/-- Python `s.startswith(pre)`. -/
def sStarts (pre s : String) : Bool := (stripLit pre.data s.data).isSome

/-- Python `s.endswith(suf)` for a one-character suffix. -/
def endsWithChar (c : Char) (s : String) : Bool :=
  match s.data.getLast? with
  | some d => d = c
  | none => false

/-- Python `s[n:]`. -/
def sDrop (s : String) (n : Nat) : String := ⟨s.data.drop n⟩

/-- Python `s[:-1]`. -/
def sDropLast (s : String) : String := ⟨s.data.dropLast⟩

/-- Drop the given character from the end of a character list
(Python `rstrip`). -/
def rstripCh (c : Char) (l : List Char) : List Char :=
  (l.reverse.dropWhile (· = c)).reverse

/-- Python `s.rstrip('/')`. -/
def rstripSlash (s : String) : String := ⟨rstripCh '/' s.data⟩

/-- Python `s.lstrip('/')`. -/
def lstripSlash (s : String) : String := ⟨s.data.dropWhile (· = '/')⟩

/-- Python `s.strip('/')`. -/
def stripSlashBoth (s : String) : String := ⟨rstripCh '/' (s.data.dropWhile (· = '/'))⟩

/-- Python `s.rstrip('-')`. -/
def rstripDash (s : String) : String := ⟨rstripCh '-' s.data⟩

/-! ## The Wayback raw-content rewrite (source lines 37 and 65-77)

`WAYBACK_URL_PATTERN = re.compile(r"^(https?://web\.archive\.org/web/(\d{14}))(if_)?(/.*)$")`

The matcher below implements exactly this anchored regular expression over
`List Char`: the two scheme alternatives, fourteen `\d` digits, the optional
`if_` marker (with the regex's backtracking into an empty marker), and a
final group `(/.*)$` in which `.` does not cross a newline and `$` also
matches just before a single trailing newline. -/

/-- The literal `https://web.archive.org/web/`. -/
def wbLitHttps : List Char := "https://web.archive.org/web/".data

/-- The literal `http://web.archive.org/web/`. -/
def wbLitHttp : List Char := "http://web.archive.org/web/".data

/-- The raw-content marker `if_`. -/
def wbMarker : List Char := "if_".data

/-- Match `(/.*)$`: the remainder must start with `/`, contain no newline
except possibly a single final one (which `$` tolerates and group 4 then
excludes). Returns group 4. -/
def g4parse (s : List Char) : Option (List Char) :=
  if s.head? = some '/' then
    if s.contains '\n' then
      if s.getLast? = some '\n' ∧ ¬ s.dropLast.contains '\n' then some s.dropLast
      else none
    else some s
  else none

/-- Match the timestamp-and-tail part of the pattern after one of the two
scheme literals `lit`; returns `(group 1, marker present, group 4)`. -/
def wbTail (lit rest : List Char) : Option (List Char × Bool × List Char) :=
  let ts := rest.take 14
  if ts.length = 14 ∧ ts.all Char.isDigit then
    let after := rest.drop 14
    match stripLit wbMarker after with
    | some r2 =>
      match g4parse r2 with
      | some g4 => some (lit ++ ts, true, g4)
      | none =>
        -- regex backtracking: retry with an empty `(if_)?`; `after` then
        -- starts with `i`, so `(/.*)` can never match, but we mirror it.
        match g4parse after with
        | some g4 => some (lit ++ ts, false, g4)
        | none => none
    | none =>
      match g4parse after with
      | some g4 => some (lit ++ ts, false, g4)
      | none => none
  else none

/-- The matcher `WAYBACK_URL_PATTERN.match` on a character list. -/
def wbParse (s : List Char) : Option (List Char × Bool × List Char) :=
  match stripLit wbLitHttps s with
  | some rest => wbTail wbLitHttps rest
  | none =>
    match stripLit wbLitHttp s with
    | some rest => wbTail wbLitHttp rest
    | none => none

/-- The rewrite on character lists: insert `if_` right after the timestamp of
a recognised Wayback replay URL; return the input unchanged when the marker is
already present or the pattern does not match. -/
def wbRewrite (s : List Char) : List Char :=
  match wbParse s with
  | some (_, true, _) => s
  | some (base_wb_url_with_ts, false, g4) => base_wb_url_with_ts ++ wbMarker ++ g4
  | none => s

/-- Source function `get_wayback_raw_content_url` (lines 65-77). -/
def get_wayback_raw_content_url (original_wayback_url : String) : String :=
  ⟨wbRewrite original_wayback_url.data⟩

/-! ## Percent-quoting (Python `urllib.parse.quote`, default `safe='/'`) -/

/-- Upper-case hex digit of a value below 16. -/
def hexDigit (n : Nat) : Char := if n < 10 then Char.ofNat (48 + n) else Char.ofNat (55 + n)

/-- UTF-8 bytes of one character (as `Nat`s). -/
def utf8Bytes (c : Char) : List Nat :=
  let n := c.toNat
  if n < 128 then [n]
  else if n < 2048 then [192 + n / 64, 128 + n % 64]
  else if n < 65536 then [224 + n / 4096, 128 + n / 64 % 64, 128 + n % 64]
  else [240 + n / 262144, 128 + n / 4096 % 64, 128 + n / 64 % 64, 128 + n % 64]

/-- Quote one UTF-8 byte: unreserved characters and `/` pass through,
everything else becomes `%HH`. -/
def quoteByte (n : Nat) : List Char :=
  if (65 ≤ n ∧ n ≤ 90) ∨ (97 ≤ n ∧ n ≤ 122) ∨ (48 ≤ n ∧ n ≤ 57) ∨
      n = 95 ∨ n = 46 ∨ n = 45 ∨ n = 126 ∨ n = 47 then
    [Char.ofNat n]
  else
    ['%', hexDigit (n / 16), hexDigit (n % 16)]

/-- Python `quote(part)` with the default safe set. -/
def pyQuote (s : String) : String :=
  ⟨(s.data.foldr (fun c acc => (utf8Bytes c).foldr (fun b a => quoteByte b ++ a) acc) [])⟩

/-- Python `"/".join(quote(part) for part in path.split('/'))` (source lines 83/100). -/
def quotedRepoPath (p : String) : String :=
  sIntercalate "/" ((sSplitOn "/" p).map pyQuote)

/-! ## Filename sanitisation and the local root name -/

/-- A character in the class `[<>:"/\\|?*\x00-\x1F]`. -/
def illegalChar (c : Char) : Bool :=
  c = '<' ∨ c = '>' ∨ c = ':' ∨ c = '"' ∨ c = '/' ∨ c = '\\' ∨ c = '|' ∨
    c = '?' ∨ c = '*' ∨ c.toNat ≤ 31

/-- Source function `sanitize_filename_for_illegal_chars` (lines 141-142):
`re.sub(r'[<>:"/\\|?*\x00-\x1F]', '_', name)`. -/
def sanitize_filename_for_illegal_chars (name : String) : String :=
  sMap (fun c => if illegalChar c then '_' else c) name

/-- Python `remote_path.replace('/','-').rstrip('-')` (source line 151): the local
root directory name derived from the repository-relative base path. -/
def localRootName (remote_path : String) : String :=
  rstripDash (sMap (fun c => if c = '/' then '-' else c) remote_path)

/-- Modelled from the spec (section 4.4 Local Layout Mapper), for comparison
with the code: replace every `/` with `-` and remove exactly one trailing
`-` when the path ended with a separator, losing no other characters. -/
def localRootSpec (remote_path : String) : String :=
  let m := sMap (fun c => if c = '/' then '-' else c) remote_path
  if endsWithChar '/' remote_path then sDropLast m else m

/-- Modelled from the spec (claim C9's description of `WAYBACK_URL_PATTERN`):
an archive-replay URL `scheme://web.archive.org/web/<14 digits>[if_]<'/'-initial
remainder>` with scheme `http` or `https`. -/
def WaybackShape (s : String) : Prop :=
  ∃ scheme ts marker rest : String,
    (scheme = "http" ∨ scheme = "https") ∧
    ts.data.length = 14 ∧ ts.data.all Char.isDigit = true ∧
    (marker = "" ∨ marker = "if_") ∧
    rest.data.head? = some '/' ∧
    s = scheme ++ "://web.archive.org/web/" ++ ts ++ marker ++ rest

/-! ## Data model: listing entries, pages, the oracle, run state -/

/-- One `<img alt=...>` candidate inside the `<menu>` listing block, as the
source consumes it (lines 211-230): the icon's `alt` text, the resolved
name-link `href` (`none` when the sibling structure does not match), and the
text of the first `<b>` inside the following `<a>` when present. -/
structure Entry where
  alt : String
  href : Option String
  revBold : Option String
deriving DecidableEq

/-- A fetched listing page after parsing: the `<menu>` block with its icon
entries, or `none` when no `<menu>` tag is found. -/
structure Page where
  menu : Option (List Entry)
deriving DecidableEq

/-- The external collaborators: transport + DOM extraction for listing pages
and for the two file-fetch strategies, URL resolution, percent-decoding, and
filesystem success of directory creation / file writes.  All are pure
functions, which models the determinism assumption of an unchanged remote
tree and filesystem. -/
structure Env where
  /-- Source `fetch_page_content` + `BeautifulSoup`: `none` covers a transport error
  or falsy page text. -/
  pages : String → Option Page
  /-- Markup strategy result for a markup-view URL: the re-encoded text of
  the located `<pre>` block; `none` covers a transport error or no usable
  `<pre>` tag. -/
  httpMarkup : String → Option String
  /-- Checkout strategy result for a (rewritten) checkout URL: the raw bytes;
  `none` is a transport error. -/
  httpCheckout : String → Option String
  /-- Python `urllib.parse.urljoin`. -/
  urljoin : String → String → String
  /-- Python `urllib.parse.unquote`. -/
  unquote : String → String
  /-- Whether `os.makedirs` succeeds for a directory path (queried on the
  trailing-slash-normalised path, as the OS resolves it). -/
  mkdirOk : String → Bool
  /-- Whether `open(path, 'wb').write(...)` succeeds. -/
  saveOk : String → Bool

/-- Python truthiness of an optional string (`None` and `''`/`b''` falsy). -/
def truthyS : Option String → Bool
  | some c => c ≠ ""
  | none => false

/-- Lookup in the file association list (first match wins). -/
def fsLookup (files : List (String × String)) (p : String) : Option String :=
  (files.find? (fun e => e.1 == p)).map (fun e => e.2)

/-- A work-queue node: `(remote listing URL, repository path, local relative
path)` — exactly the tuple pushed on the source's deque. -/
abbrev Node := String × String × String

/-- The mutable state of one run: queue, visited set, filesystem, counters
and error list, plus ghost event traces. -/
structure St where
  queue : List Node
  visited : List String
  files : List (String × String)
  dirs : List String
  savedDirs : Nat
  skippedDirs : Nat
  savedFiles : Nat
  skippedFiles : Nat
  errors : List (String × String)
  /-- Ghost: listing URLs actually fetched, in order. -/
  fetched : List String
  /-- Ghost: local file path of every processed file entry, in order. -/
  fpaths : List String
  /-- Ghost: local file paths actually written, in order. -/
  writes : List String
  /-- Ghost: download strategy attempts `(strategy, attempted URL)`. -/
  dlAttempts : List (Bool × String)
deriving DecidableEq

/-- The empty state (used to seed runs and by concrete evaluations). -/
def St.empty : St :=
  { queue := [], visited := [], files := [], dirs := [], savedDirs := 0,
    skippedDirs := 0, savedFiles := 0, skippedFiles := 0, errors := [],
    fetched := [], fpaths := [], writes := [], dlAttempts := [] }

/-! ## The two file-fetch strategies (source lines 82-136)

A strategy attempt is tagged `true` for the markup strategy and `false` for
the checkout strategy in the `dlAttempts` ghost trace. -/

/-- The markup-view URL (source line 101). -/
def markup_view_url (cgi_base_url latest_revision path_for_download_url : String) : String :=
  rstripSlash cgi_base_url ++ "/" ++ quotedRepoPath path_for_download_url ++
    "?rev=" ++ latest_revision ++ "&content-type=text/x-cvsweb-markup"

/-- The checkout download URL after the Wayback rewrite (source lines 84-85);
`"~checkout~"` is the source's `CHECKOUT_PREFIX.strip('/')`. -/
def file_download_url (cgi_base_url latest_revision path_for_download_url : String) : String :=
  get_wayback_raw_content_url
    (rstripSlash cgi_base_url ++ "/" ++ "~checkout~" ++ "/" ++
      quotedRepoPath path_for_download_url ++ "?rev=" ++ latest_revision)

/-- Source function `fetch_file_content_markup`: returns the attempted URL and the optional
content, the transport/DOM part delegated to the oracle. -/
def fetch_file_content_markup (env : Env) (cgi_base_url latest_revision path_for_download_url : String) :
    String × Option String :=
  let url := markup_view_url cgi_base_url latest_revision path_for_download_url
  (url, env.httpMarkup url)

/-- Source function `fetch_file_content_checkout`: returns the attempted (rewritten) URL and
the optional raw content. -/
def fetch_file_content_checkout (env : Env) (cgi_base_url latest_revision path_for_download_url : String) :
    String × Option String :=
  let url := file_download_url cgi_base_url latest_revision path_for_download_url
  (url, env.httpCheckout url)

/-- The strategy loop of source lines 274-278:
`for fetch_file_content in [fetch_file_content_markup, fetch_file_content_checkout]`
with `if file_content: break`.  Returns the attempts made (in order), the
last attempted URL and the last content. -/
def tryStrategies (env : Env) (cgi_base_url latest_revision path_for_download_url : String) :
    List (Bool × String) × String × Option String :=
  let m := fetch_file_content_markup env cgi_base_url latest_revision path_for_download_url
  if truthyS m.2 then ([(true, m.1)], m.1, m.2)
  else
    let c := fetch_file_content_checkout env cgi_base_url latest_revision path_for_download_url
    ([(true, m.1), (false, c.1)], c.1, c.2)

/-! ## Local path mapping -/

/-- Python `os.path.join` for the shapes this program produces (POSIX, second
component relative). -/
def pjoin (a b : String) : String :=
  if a = "" then b
  else if endsWithChar '/' a then a ++ b
  else a ++ "/" ++ b

/-- Replace backslashes by forward slashes
(`next_local_rel_path.replace("\\", "/")`, source line 252). -/
def bsToSlash (s : String) : String := sMap (fun c => if c = '\\' then '/' else c) s

/-- The navigation-chrome names filtered out of listings (source line 241);
the quote in `don't` is written via `Char.ofNat` to keep the file ASCII-clean. -/
def ignoredNames : List String :=
  ["parent directory", "[don" ++ ⟨[Char.ofNat 39]⟩ ++ "t hide]", "[back]", "attic", "attic/"]

/-! ## Processing one file entry (source lines 258-294) -/

/-- Handle a `[TXT]` entry: skip when the destination exists non-empty,
otherwise require a truthy latest revision, run the strategy loop, and save
or record an error.  `nextRepoPath` is `next_item_full_repo_path`. -/
def processFile (env : Env) (cgi_base_url curLocalFull nextRepoPath displayed : String)
    (revBold : Option String) (st : St) : St :=
  let local_file_path := pjoin curLocalFull displayed
  let st := { st with fpaths := st.fpaths ++ [local_file_path] }
  if truthyS (fsLookup st.files local_file_path) then
    { st with skippedFiles := st.skippedFiles + 1 }
  else
    -- `latest_revision` stays `None` unless the sibling link holds a <b>;
    -- `if latest_revision:` is Python truthiness, so `''` also fails it.
    if truthyS revBold then
      match revBold with
      | some latest_revision =>
        let path_for_download_url := stripSlashBoth nextRepoPath
        let r := tryStrategies env cgi_base_url latest_revision path_for_download_url
        let st := { st with dlAttempts := st.dlAttempts ++ r.1 }
        match r.2.2 with
        | some c =>
          if c ≠ "" then
            if env.saveOk local_file_path then
              { st with files := (local_file_path, c) :: st.files,
                        writes := st.writes ++ [local_file_path],
                        savedFiles := st.savedFiles + 1 }
            else { st with errors := st.errors ++ [("save error", r.2.1)] }
          else { st with errors := st.errors ++ [("download error", r.2.1)] }
        | none => { st with errors := st.errors ++ [("download error", r.2.1)] }
      | none => st  -- unreachable: truthyS none = false
    else { st with errors := st.errors ++ [("latest revision error", displayed)] }

/-! ## Processing one listing entry (source lines 211-295) -/

/-- The name part of the href after the `./` same-directory marker
(`node_name_from_href`, source line 231). -/
def nodeNameOf (href_value : String) : String := sDrop href_value 2

/-- Source value `temp_local_name` (lines 235-238): the href name trimmed of one
trailing slash for directories. -/
def tempNameOf (href_value : String) : String :=
  if endsWithChar '/' (nodeNameOf href_value) then sDropLast (nodeNameOf href_value)
  else nodeNameOf href_value

/-- Source value `displayed_node_name` (line 240): percent-decode, then sanitise. -/
def displayedNameOf (env : Env) (href_value : String) : String :=
  sanitize_filename_for_illegal_chars (env.unquote (tempNameOf href_value))

/-- The queue node enqueued for a `[DIR]` entry (source lines 249-256):
child listing URL, child repository path (trailing slash forced), child local
relative path. -/
def dirNodeOf (env : Env) (curUrl curRepo curLrel : String) (href_value : String) : Node :=
  (env.urljoin curUrl (nodeNameOf href_value),
   (let nr := env.urljoin curRepo (nodeNameOf href_value)
    if endsWithChar '/' nr then nr else nr ++ "/"),
   bsToSlash (pjoin curLrel (displayedNameOf env href_value)))

/-- Handle one `<img>` candidate of the `<menu>` block: structural filtering,
name derivation and sanitisation, chrome filtering, then the `[DIR]` /
`[TXT]` dispatch. -/
def processEntry (env : Env) (cgi_base_url curUrl curRepo curLrel curLocalFull : String)
    (st : St) (e : Entry) : St :=
  match e.href with
  | none => st
  | some href_value =>
    if sStarts "./" href_value then
      let displayed_node_name := displayedNameOf env href_value
      if displayed_node_name = "" ∨ sLower displayed_node_name ∈ ignoredNames then st
      else
        if sUpper e.alt = "[DIR]" then
          { st with queue := st.queue ++ [dirNodeOf env curUrl curRepo curLrel href_value] }
        else if sUpper e.alt = "[TXT]" then
          processFile env cgi_base_url curLocalFull
            (env.urljoin curRepo (nodeNameOf href_value)) displayed_node_name e.revBold st
        else st
    else st

/-! ## One dequeued node (source lines 177-297) -/

/-- The local directory step (source lines 192-202): skip when present,
create when `os.makedirs` succeeds, `none` on `OSError` (the source then
`continue`s to the next node). -/
def mkDirStep (env : Env) (p : String) (st : St) : Option St :=
  if rstripSlash p ∈ st.dirs then some { st with skippedDirs := st.skippedDirs + 1 }
  else if env.mkdirOk (rstripSlash p) then
    some { st with dirs := rstripSlash p :: st.dirs, savedDirs := st.savedDirs + 1 }
  else none

/-- Parse phase of a node: no `<menu>` is a soft warning, otherwise fold the
entry handler over the icon entries in document order. -/
def listingPhase (env : Env) (cgi_base_url url repo lrel curLocalFull : String)
    (page : Page) (st : St) : St :=
  match page.menu with
  | none => st
  | some entries =>
    entries.foldl (processEntry env cgi_base_url url repo lrel curLocalFull) st

/-- Process one dequeued node and return the state the loop continues from.
Every per-node failure path is a `continue` in the source, so this is total. -/
def stepNode (env : Env) (cgi_base_url outDir : String) (url repo lrel : String)
    (rest : List Node) (st : St) : St :=
  if url ∈ st.visited then { st with queue := rest }
  else
    let st1 := { st with queue := rest, visited := url :: st.visited,
                         fetched := st.fetched ++ [url] }
    match env.pages url with
    | none => st1  -- transport error (or falsy page text): log and continue
    | some page =>
      let curLocalFull := pjoin outDir lrel
      match mkDirStep env curLocalFull st1 with
      | none => st1  -- OSError creating the directory: continue
      | some st2 => listingPhase env cgi_base_url url repo lrel curLocalFull page st2

/-- The `while queue:` loop with explicit fuel; `none` means the fuel ran out
before the queue emptied. -/
def runLoop (env : Env) (cgi_base_url outDir : String) : Nat → St → Option St
  | 0, _ => none
  | fuel + 1, st =>
    match st.queue with
    | [] => some st
    | (url, repo, lrel) :: rest =>
      runLoop env cgi_base_url outDir fuel (stepNode env cgi_base_url outDir url repo lrel rest st)

/-- The remote path with a trailing slash forced (source lines 166-167),
starting from the part of `full_url` after `cvsweb.cgi`. -/
def remotePathOf (p1 : String) : String :=
  if endsWithChar '/' (lstripSlash p1) then lstripSlash p1 else lstripSlash p1 ++ "/"

/-- The initialisation of `fetch_latest_snapshot` (source lines 149-173):
derive the CGI base URL and the remote path from `full_url`, derive and
create the root output directory, and build the initial loop state over the
initial local filesystem `(files0, dirs0)`.  `none` models the two fatal
outcomes: the `exit()` when the root output directory cannot be created, and
the uncaught `IndexError` when `full_url` lacks `cvsweb.cgi` or the remote
path is empty. -/
def initRun (env : Env) (full_url : String) (files0 : List (String × String))
    (dirs0 : List String) : Option (String × String × St) :=
  match sSplitOn "cvsweb.cgi" full_url with
  | p0 :: p1 :: _ =>
    let cgi_base_url := p0 ++ "cvsweb.cgi"
    let local_output_dir := localRootName (lstripSlash p1)
    let dirs1? :=
      if rstripSlash local_output_dir ∈ dirs0 then some dirs0
      else if env.mkdirOk (rstripSlash local_output_dir) then
        some (rstripSlash local_output_dir :: dirs0)
      else none  -- ERROR creating base output directory: exit()
    match dirs1? with
    | none => none
    | some dirs1 =>
      if lstripSlash p1 = "" then none  -- `remote_path[-1]` raises IndexError
      else
        some (cgi_base_url, local_output_dir,
          { St.empty with
              queue := [(rstripSlash cgi_base_url ++ "/" ++ lstripSlash (remotePathOf p1),
                         remotePathOf p1, "")],
              files := files0, dirs := dirs1 })
  | _ => none

/-- Source function `fetch_latest_snapshot` (lines 147-299) over an initial local
filesystem: initialise, then run the queue loop. -/
def fetch_latest_snapshot (env : Env) (fuel : Nat) (full_url : String)
    (files0 : List (String × String)) (dirs0 : List String) : Option St :=
  match initRun env full_url files0 dirs0 with
  | none => none
  | some (cgi_base_url, local_output_dir, st0) =>
    runLoop env cgi_base_url local_output_dir fuel st0

/-! ## Run-evolution predicate and concrete oracles

`Evolves env s s'` records how the filesystem-related observables grow along
a run segment from `s` to `s'`: the processed-file and write traces extend,
every write is a processed file entry of the segment, a path is non-empty
afterwards exactly when it was before or the segment wrote it, and the
directory set only grows, by directories the oracle can create. -/
def Evolves (env : Env) (s s' : St) : Prop :=
  ∃ t w, s'.fpaths = s.fpaths ++ t ∧ s'.writes = s.writes ++ w ∧
    (∀ p, p ∈ w → p ∈ t) ∧
    (∀ p, truthyS (fsLookup s'.files p) = true ↔
      (truthyS (fsLookup s.files p) = true ∨ p ∈ w)) ∧
    (∀ x, x ∈ s.dirs → x ∈ s'.dirs) ∧
    (∀ x, x ∈ s'.dirs → x ∈ s.dirs ∨ env.mkdirOk x = true)

/-- The root listing URL shared by the concrete oracles below. -/
def urlB : String := "http://h/cvsweb.cgi/m/"

/-- Oracle where every page fetch fails. -/
def envA : Env :=
  { pages := fun _ => none, httpMarkup := fun _ => none, httpCheckout := fun _ => none,
    urljoin := fun b r => b ++ r, unquote := fun s => s,
    mkdirOk := fun _ => true, saveOk := fun _ => true }

/-- Oracle with one listing holding one file entry whose markup fetch
succeeds. -/
def envB : Env :=
  { pages := fun u =>
      if u = urlB then
        some { menu := some [{ alt := "[TXT]", href := some "./a.txt", revBold := some "1.3" }] }
      else none,
    httpMarkup := fun _ => some "body", httpCheckout := fun _ => none,
    urljoin := fun b r => b ++ r, unquote := fun s => s,
    mkdirOk := fun _ => true, saveOk := fun _ => true }

/-- Oracle whose single listing holds two file entries with distinct hrefs
(`./a?` and `./a*`) that sanitise to the same local name `a_`. -/
def envC2 : Env :=
  { envB with
    pages := fun u =>
      if u = urlB then
        some (Page.mk (some [
          { alt := "[TXT]", href := some "./a?", revBold := some "1.1" },
          { alt := "[TXT]", href := some "./a*", revBold := some "1.1" }]))
      else none,
    httpMarkup := fun _ => some "x" }

/-- Oracle whose single listing holds one file entry with no revision
marker. -/
def envC5 : Env :=
  { envA with
    pages := fun u =>
      if u = urlB then
        some (Page.mk (some [{ alt := "[TXT]", href := some "./a", revBold := none }]))
      else none }

/-- Oracle whose single listing holds one directory entry; the child listing
fetch fails. -/
def envC6 : Env :=
  { envA with
    pages := fun u =>
      if u = urlB then
        some (Page.mk (some [{ alt := "[DIR]", href := some "./sub/", revBold := none }]))
      else none }

/-- Oracle where the markup strategy yields nothing and the checkout strategy
succeeds. -/
def envD : Env :=
  { envA with httpMarkup := fun _ => none, httpCheckout := fun _ => some "raw" }

/-- First run of `envB` from an empty local filesystem. -/
def runB1 : Option St := fetch_latest_snapshot envB 3 urlB [] []

/-- The state after the first `envB` run. -/
def stB1 : St := runB1.getD St.empty

/-- Failing-root-fetch run of `envA`. -/
def runA : Option St := fetch_latest_snapshot envA 2 urlB [] []

/-- First and second runs of the colliding-names oracle. -/
def runC2a : Option St := fetch_latest_snapshot envC2 3 urlB [] []

/-- Second run of the colliding-names oracle over the first run's output. -/
def runC2b : Option St :=
  match runC2a with
  | some r => fetch_latest_snapshot envC2 3 urlB r.files r.dirs
  | none => none

/-- Run of the no-revision oracle with the destination file already present
and non-empty. -/
def runC5 : Option St := fetch_latest_snapshot envC5 3 urlB [("m/a", "x")] []

/-- Run of the failing-child-listing oracle. -/
def runC6 : Option St := fetch_latest_snapshot envC6 3 urlB [] []

/-- The coupling between a first-run segment from `st1` to `st1'` and the
replayed second-run segment from `st2` to `st2'`: the second run tracks the
first run's queue and visited set, leaves its own filesystem untouched, saves
nothing, and its skip counter absorbs exactly the first segment's saves and
skips. -/
def ReplayOut (st1 st1' st2 st2' : St) : Prop :=
  st2'.queue = st1'.queue ∧ st2'.visited = st1'.visited ∧
  st2'.files = st2.files ∧ st2'.dirs = st2.dirs ∧
  st2'.savedFiles = st2.savedFiles ∧ st2'.savedDirs = st2.savedDirs ∧
  st2'.skippedFiles + st1.savedFiles + st1.skippedFiles =
    st2.skippedFiles + st1'.savedFiles + st1'.skippedFiles

/-!
# Theorems
-/

/-! ## Wayback lemma layer -/

theorem dataExt {a b : String} (h : a.data = b.data) : a = b := by
  cases a; cases b; exact congrArg String.mk h

theorem mk_data (s : String) : (⟨s.data⟩ : String) = s := by cases s; rfl

theorem sdata_append (a b : String) : (a ++ b).data = a.data ++ b.data := by
  cases a; cases b; rfl

theorem stripLit_eq_some {l s r : List Char} (h : stripLit l s = some r) : s = l ++ r := by
  induction l generalizing s with
  | nil => simp [stripLit] at h; simp [h]
  | cons c cs ih =>
    cases s with
    | nil => simp [stripLit] at h
    | cons d ds =>
      by_cases hc : c = d
      · subst hc
        simp only [stripLit, if_pos rfl] at h
        simpa using ih h
      · simp [stripLit, hc] at h

theorem g4parse_of_good {s : List Char} (h1 : s.head? = some '/')
    (h2 : s.contains '\n' = false) : g4parse s = some s := by
  have h2' : ¬ (s.contains '\n' = true) := by rw [h2]; simp
  simp only [g4parse]
  rw [if_pos h1, if_neg h2']

theorem list_eq_dropLast_append {l : List Char} (h : l.getLast? = some '\n') :
    l = l.dropLast ++ ['\n'] := by
  have hne : l ≠ [] := by rintro rfl; simp at h
  have h2 := List.dropLast_append_getLast hne
  rw [List.getLast?_eq_getLast l hne] at h
  rw [Option.some_inj.mp h] at h2
  exact h2.symm

theorem g4parse_sound {s g : List Char} (h : g4parse s = some g) :
    g.head? = some '/' ∧ g.contains '\n' = false ∧ (s = g ∨ s = g ++ ['\n']) := by
  simp only [g4parse] at h
  by_cases h1 : s.head? = some '/'
  · rw [if_pos h1] at h
    by_cases h2 : s.contains '\n' = true
    · rw [if_pos h2] at h
      by_cases h3 : s.getLast? = some '\n' ∧ ¬ s.dropLast.contains '\n'
      · rw [if_pos h3] at h
        obtain ⟨h4, h5⟩ := h3
        have hg : g = s.dropLast := (Option.some_inj.mp h).symm
        subst hg
        have hsplit := list_eq_dropLast_append h4
        refine ⟨?_, by simpa using h5, Or.inr hsplit⟩
        -- head of dropLast is the head of s unless dropLast is empty
        cases hdl : s.dropLast with
        | nil =>
          rw [hdl] at hsplit
          rw [hsplit] at h1
          simp at h1
        | cons c t =>
          rw [hdl] at hsplit
          rw [hsplit] at h1
          simpa using h1
      · rw [if_neg h3] at h; exact absurd h (by simp)
    · rw [if_neg h2] at h
      have hg : g = s := (Option.some_inj.mp h).symm
      subst hg
      exact ⟨h1, by simpa using h2, Or.inl rfl⟩
  · rw [if_neg h1] at h; exact absurd h (by simp)


theorem wbTail_marker (lit : List Char) {ts g : List Char} (hts : ts.length = 14)
    (hd : ts.all Char.isDigit = true) (hg : g.head? = some '/')
    (hn : g.contains '\n' = false) :
    wbTail lit (ts ++ (wbMarker ++ g)) = some (lit ++ ts, true, g) := by
  have h1 : (ts ++ (wbMarker ++ g)).take 14 = ts := List.take_left' hts
  have h2 : (ts ++ (wbMarker ++ g)).drop 14 = wbMarker ++ g := List.drop_left' hts
  simp only [wbTail, h1, h2,
    show stripLit wbMarker (wbMarker ++ g) = some g from rfl, g4parse_of_good hg hn]
  rw [if_pos (And.intro hts hd)]

theorem wbTail_nomark (lit : List Char) {ts g : List Char} (hts : ts.length = 14)
    (hd : ts.all Char.isDigit = true) (hg : g.head? = some '/')
    (hn : g.contains '\n' = false) :
    wbTail lit (ts ++ g) = some (lit ++ ts, false, g) := by
  obtain ⟨t, rfl⟩ : ∃ t, g = '/' :: t := by
    cases g with
    | nil => simp at hg
    | cons c t =>
      have hc : c = '/' := by simpa using hg
      exact ⟨t, by rw [hc]⟩
  have h1 : (ts ++ ('/' :: t)).take 14 = ts := List.take_left' hts
  have h2 : (ts ++ ('/' :: t)).drop 14 = '/' :: t := List.drop_left' hts
  simp only [wbTail, h1, h2,
    show stripLit wbMarker ('/' :: t) = none from rfl, g4parse_of_good hg hn]
  rw [if_pos (And.intro hts hd)]

theorem wbParse_https (rest : List Char) :
    wbParse (wbLitHttps ++ rest) = wbTail wbLitHttps rest := by
  simp only [wbParse]
  rw [show stripLit wbLitHttps (wbLitHttps ++ rest) = some rest from rfl]

theorem wbParse_http (rest : List Char) :
    wbParse (wbLitHttp ++ rest) = wbTail wbLitHttp rest := by
  simp only [wbParse]
  rw [show stripLit wbLitHttps (wbLitHttp ++ rest) = none from rfl,
      show stripLit wbLitHttp (wbLitHttp ++ rest) = some rest from rfl]

theorem wbTail_sound {lit rest h b g} (hp : wbTail lit rest = some (h, b, g)) :
    ∃ ts tail, rest = ts ++ tail ∧ ts.length = 14 ∧ ts.all Char.isDigit = true ∧
      h = lit ++ ts ∧ g.head? = some '/' ∧ g.contains '\n' = false ∧
      ((b = true ∧ ∃ r2, tail = wbMarker ++ r2 ∧ (r2 = g ∨ r2 = g ++ ['\n'])) ∨
       (b = false ∧ (tail = g ∨ tail = g ++ ['\n']))) := by
  simp only [wbTail] at hp
  by_cases hts : (rest.take 14).length = 14 ∧ (rest.take 14).all Char.isDigit = true
  · rw [if_pos hts] at hp
    refine ⟨rest.take 14, rest.drop 14, (List.take_append_drop 14 rest).symm, hts.1, hts.2, ?_⟩
    cases hm : stripLit wbMarker (rest.drop 14) with
    | some r2 =>
      simp only [hm] at hp
      cases hg : g4parse r2 with
      | some g4 =>
        simp only [hg] at hp
        obtain ⟨rfl, rfl, rfl⟩ : lit ++ rest.take 14 = h ∧ b = true ∧ g4 = g := by
          simpa using hp
        obtain ⟨ha, hb, hc⟩ := g4parse_sound hg
        exact ⟨rfl, ha, hb, Or.inl ⟨rfl, r2, stripLit_eq_some hm, hc⟩⟩
      | none =>
        simp only [hg] at hp
        cases hg2 : g4parse (rest.drop 14) with
        | some g4 =>
          simp only [hg2] at hp
          obtain ⟨rfl, rfl, rfl⟩ : lit ++ rest.take 14 = h ∧ b = false ∧ g4 = g := by
            simpa using hp
          obtain ⟨ha, hb, hc⟩ := g4parse_sound hg2
          exact ⟨rfl, ha, hb, Or.inr ⟨rfl, hc⟩⟩
        | none => simp only [hg2] at hp; cases hp
    | none =>
      simp only [hm] at hp
      cases hg2 : g4parse (rest.drop 14) with
      | some g4 =>
        simp only [hg2] at hp
        obtain ⟨rfl, rfl, rfl⟩ : lit ++ rest.take 14 = h ∧ b = false ∧ g4 = g := by
          simpa using hp
        obtain ⟨ha, hb, hc⟩ := g4parse_sound hg2
        exact ⟨rfl, ha, hb, Or.inr ⟨rfl, hc⟩⟩
      | none => simp only [hg2] at hp; cases hp
  · rw [if_neg hts] at hp; cases hp

theorem wbParse_sound {s : List Char} {h b g} (hp : wbParse s = some (h, b, g)) :
    ∃ lit rest, (lit = wbLitHttps ∨ lit = wbLitHttp) ∧ s = lit ++ rest ∧
      wbTail lit rest = some (h, b, g) := by
  simp only [wbParse] at hp
  cases hh : stripLit wbLitHttps s with
  | some rest => simp only [hh] at hp; exact ⟨_, rest, Or.inl rfl, stripLit_eq_some hh, hp⟩
  | none =>
    simp only [hh] at hp
    cases hh2 : stripLit wbLitHttp s with
    | some rest => simp only [hh2] at hp; exact ⟨_, rest, Or.inr rfl, stripLit_eq_some hh2, hp⟩
    | none => simp only [hh2] at hp; cases hp

theorem wbRewrite_idem (s : List Char) : wbRewrite (wbRewrite s) = wbRewrite s := by
  cases hp : wbParse s with
  | none =>
    have h1 : wbRewrite s = s := by simp [wbRewrite, hp]
    rw [h1]; exact h1
  | some tpl =>
    obtain ⟨h, b, g⟩ := tpl
    cases b with
    | true =>
      have h1 : wbRewrite s = s := by simp [wbRewrite, hp]
      rw [h1]; exact h1
    | false =>
      have h1 : wbRewrite s = h ++ wbMarker ++ g := by simp [wbRewrite, hp]
      rw [h1]
      obtain ⟨lit, rest, hlit, hs, htail⟩ := wbParse_sound hp
      obtain ⟨ts, tail, hrest, hts, hdig, hh, hghead, hgnl, _⟩ := wbTail_sound htail
      subst hh
      have hassoc : lit ++ ts ++ wbMarker ++ g = lit ++ (ts ++ (wbMarker ++ g)) := by
        simp [List.append_assoc]
      rw [hassoc]
      have htm := wbTail_marker lit hts hdig hghead hgnl
      rcases hlit with rfl | rfl
      · simp [wbRewrite, wbParse_https, htm]
      · simp [wbRewrite, wbParse_http, htm]


/-! ## Wayback rewrite: composition helpers -/

theorem cat_http : "http".data ++ "://web.archive.org/web/".data = wbLitHttp := by decide

theorem cat_https : "https".data ++ "://web.archive.org/web/".data = wbLitHttps := by decide

theorem data_if : "if_".data = wbMarker := by decide

theorem wbRewrite_insert {lit : List Char} (hl : lit = wbLitHttps ∨ lit = wbLitHttp)
    {ts g : List Char} (hts : ts.length = 14) (hd : ts.all Char.isDigit = true)
    (hg : g.head? = some '/') (hn : g.contains '\n' = false) :
    wbRewrite (lit ++ (ts ++ g)) = lit ++ ts ++ wbMarker ++ g := by
  have ht := wbTail_nomark lit hts hd hg hn
  rcases hl with rfl | rfl
  · simp [wbRewrite, wbParse_https, ht]
  · simp [wbRewrite, wbParse_http, ht]

theorem wbRewrite_marked {lit : List Char} (hl : lit = wbLitHttps ∨ lit = wbLitHttp)
    {ts g : List Char} (hts : ts.length = 14) (hd : ts.all Char.isDigit = true)
    (hg : g.head? = some '/') (hn : g.contains '\n' = false) :
    wbRewrite (lit ++ (ts ++ (wbMarker ++ g))) = lit ++ (ts ++ (wbMarker ++ g)) := by
  have ht := wbTail_marker lit hts hd hg hn
  rcases hl with rfl | rfl
  · simp [wbRewrite, wbParse_https, ht]
  · simp [wbRewrite, wbParse_http, ht]

theorem sdata_scheme_split (scheme ts rest : String)
    (h : scheme = "http" ∨ scheme = "https") :
    ∃ lit, (lit = wbLitHttps ∨ lit = wbLitHttp) ∧
      (scheme ++ "://web.archive.org/web/" ++ ts ++ rest).data =
        lit ++ (ts.data ++ rest.data) ∧
      scheme.data ++ "://web.archive.org/web/".data = lit := by
  rcases h with rfl | rfl
  · refine ⟨wbLitHttp, Or.inr rfl, ?_, cat_http⟩
    simp [sdata_append, ← cat_http]
  · refine ⟨wbLitHttps, Or.inl rfl, ?_, cat_https⟩
    simp [sdata_append, ← cat_https]


theorem data_mkL (l : List Char) : (⟨l⟩ : String).data = l := rfl

/-- Claim C7: for every URL matching the archive-replay pattern without the
raw-content marker, the rewrite inserts `if_` immediately after the timestamp
segment; if the marker is already present the input is returned unchanged; and
applying the rewrite twice equals applying it once, for every input string. -/
theorem c7_wayback_rewrite :
    (∀ scheme ts rest : String, (scheme = "http" ∨ scheme = "https") →
      ts.data.length = 14 → ts.data.all Char.isDigit = true →
      rest.data.head? = some '/' → rest.data.contains '\n' = false →
      get_wayback_raw_content_url (scheme ++ "://web.archive.org/web/" ++ ts ++ rest) =
        scheme ++ "://web.archive.org/web/" ++ ts ++ "if_" ++ rest) ∧
    (∀ scheme ts rest : String, (scheme = "http" ∨ scheme = "https") →
      ts.data.length = 14 → ts.data.all Char.isDigit = true →
      rest.data.head? = some '/' → rest.data.contains '\n' = false →
      get_wayback_raw_content_url (scheme ++ "://web.archive.org/web/" ++ ts ++ "if_" ++ rest) =
        scheme ++ "://web.archive.org/web/" ++ ts ++ "if_" ++ rest) ∧
    (∀ s : String,
      get_wayback_raw_content_url (get_wayback_raw_content_url s) =
        get_wayback_raw_content_url s) := by
  refine ⟨?_, ?_, ?_⟩
  · intro scheme ts rest hsch hts hdig hhead hnl
    obtain ⟨lit, hlit, hdata, hcat⟩ := sdata_scheme_split scheme ts rest hsch
    apply dataExt
    simp only [get_wayback_raw_content_url, data_mkL]
    rw [hdata, wbRewrite_insert hlit hts hdig hhead hnl]
    simp [sdata_append, data_if, wbMarker, ← hcat, List.append_assoc]
  · intro scheme ts rest hsch hts hdig hhead hnl
    obtain ⟨lit, hlit, _, hcat⟩ := sdata_scheme_split scheme ts rest hsch
    have hdata2 : (scheme ++ "://web.archive.org/web/" ++ ts ++ "if_" ++ rest).data =
        lit ++ (ts.data ++ (wbMarker ++ rest.data)) := by
      simp [sdata_append, data_if, wbMarker, ← hcat, List.append_assoc]
    apply dataExt
    simp only [get_wayback_raw_content_url, data_mkL]
    rw [hdata2, wbRewrite_marked hlit hts hdig hhead hnl]
  · intro s
    exact dataExt (wbRewrite_idem s.data)

/-- Witness for C7 at the spec's example URL shape. -/
theorem c7_wayback_rewrite_witness :
    get_wayback_raw_content_url
        ("https" ++ "://web.archive.org/web/" ++ "20171010115113" ++ "/http://oss.sgi.com/x?rev=1.2") =
      "https" ++ "://web.archive.org/web/" ++ "20171010115113" ++ "if_" ++ "/http://oss.sgi.com/x?rev=1.2" :=
  c7_wayback_rewrite.1 "https" "20171010115113" "/http://oss.sgi.com/x?rev=1.2"
    (Or.inr rfl) (by decide) (by decide) (by decide) (by decide)


/-- Claim C9: every input string that does not match the archive-replay
pattern (scheme `http`/`https`, host `web.archive.org`, path `/web/` followed
by exactly fourteen digits, optionally `if_`, then a `/`-initial remainder) is
returned unchanged by `get_wayback_raw_content_url`. -/
theorem c9_nonmatching_unchanged :
    ∀ s : String, ¬ WaybackShape s → get_wayback_raw_content_url s = s := by
  intro s hns
  cases hp : wbParse s.data with
  | none =>
    apply dataExt
    simp only [get_wayback_raw_content_url, data_mkL]
    simp [wbRewrite, hp]
  | some tpl =>
    obtain ⟨h, b, g⟩ := tpl
    cases b with
    | true =>
      apply dataExt
      simp only [get_wayback_raw_content_url, data_mkL]
      simp [wbRewrite, hp]
    | false =>
      exfalso
      apply hns
      obtain ⟨lit, rest, hlit, hs, htail⟩ := wbParse_sound hp
      obtain ⟨ts, tail, hrest, hts, hdig, hh, hghead, hgnl, hbr⟩ := wbTail_sound htail
      have htailhead : tail.head? = some '/' := by
        obtain ⟨t, rfl⟩ : ∃ t, g = '/' :: t := by
          cases g with
          | nil => simp at hghead
          | cons c t =>
            have hc : c = '/' := by simpa using hghead
            exact ⟨t, by rw [hc]⟩
        rcases hbr with ⟨hb, _⟩ | ⟨_, htl⟩
        · cases hb
        · rcases htl with rfl | rfl
          · rfl
          · rfl
      -- choose the scheme string matching the literal
      have hschemes : ∃ scheme : String, (scheme = "http" ∨ scheme = "https") ∧
          scheme.data ++ "://web.archive.org/web/".data = lit := by
        rcases hlit with rfl | rfl
        · exact ⟨"https", Or.inr rfl, cat_https⟩
        · exact ⟨"http", Or.inl rfl, cat_http⟩
      obtain ⟨scheme, hsch, hcat⟩ := hschemes
      refine ⟨scheme, ⟨ts⟩, "", ⟨tail⟩, hsch, by simpa using hts, by simpa using hdig,
        Or.inl rfl, by simpa using htailhead, ?_⟩
      apply dataExt
      rw [hs, hrest]
      simp [sdata_append, ← hcat, List.append_assoc]

/-- Witness for C9: a plainly non-matching input. -/
theorem c9_nonmatching_unchanged_witness :
    get_wayback_raw_content_url "hello" = "hello" := by
  apply c9_nonmatching_unchanged "hello"
  rintro ⟨scheme, ts, marker, rest, hsch, hts, _, _, hrest, heq⟩
  have hlen := congrArg (fun x : String => x.data.length) heq
  have hr : 1 ≤ rest.data.length := by
    cases hv : rest.data with
    | nil => rw [hv] at hrest; simp at hrest
    | cons c t => simp [hv]
  have hm : 0 ≤ marker.data.length := Nat.zero_le _
  rcases hsch with rfl | rfl
  all_goals simp [sdata_append] at hlen


/-! ## Local root name (source lines 150-151) -/

theorem head_dropWhile_false (p : Char → Bool) (l : List Char) {c : Char}
    (h : (l.dropWhile p).head? = some c) : p c = false := by
  induction l with
  | nil => simp at h
  | cons a t ih =>
    rw [List.dropWhile_cons] at h
    by_cases hp : p a
    · rw [if_pos hp] at h
      exact ih h
    · rw [if_neg hp] at h
      have : a = c := by simpa using h
      subst this
      simpa using hp

theorem rstripCh_split (c : Char) (l : List Char) :
    ∃ n, rstripCh c l ++ List.replicate n c = l := by
  have hsplit := List.takeWhile_append_dropWhile (· = c) l.reverse
  have hrev := congrArg List.reverse hsplit
  rw [List.reverse_append, List.reverse_reverse] at hrev
  have hrep : List.takeWhile (· = c) l.reverse =
      List.replicate (List.takeWhile (· = c) l.reverse).length c := by
    apply List.eq_replicate_of_mem
    intro b hb
    simpa using List.mem_takeWhile_imp hb
  have hrep2 := congrArg List.reverse hrep
  rw [List.reverse_replicate] at hrep2
  refine ⟨(List.takeWhile (· = c) l.reverse).length, ?_⟩
  rw [rstripCh, ← hrep2]
  exact hrev

theorem rstripCh_getLast (c : Char) (l : List Char) :
    (rstripCh c l).getLast? ≠ some c := by
  intro h
  rw [rstripCh, List.getLast?_reverse] at h
  have := head_dropWhile_false (· = c) l.reverse h
  simp at this

/-- Claim C8 (amended): the local root directory name is the base path with
every `/` replaced by `-` and then ALL trailing `-` characters removed (not
just a single separator artifact): the result never ends in `-` and extends
to the slash-replaced path by appending some run of `-`. -/
theorem c8_local_root :
    ∀ remote_path : String,
      (∃ n, (localRootName remote_path).data ++ List.replicate n '-' =
          remote_path.data.map (fun c => if c = '/' then '-' else c)) ∧
      (localRootName remote_path).data.getLast? ≠ some '-' := by
  intro p
  constructor
  · simpa [localRootName, rstripDash, sMap, data_mkL] using
      rstripCh_split '-' (p.data.map (fun c => if c = '/' then '-' else c))
  · simpa [localRootName, rstripDash, sMap, data_mkL] using
      rstripCh_getLast '-' (p.data.map (fun c => if c = '/' then '-' else c))

/-- Counterexample for C8 as stated: on the base path `a-` (no trailing
separator), the claim says no characters are lost, so the result would be
`a-`; the code's `rstrip('-')` also removes the literal trailing hyphen and
yields `a`. -/
theorem c8_local_root_counterexample :
    localRootName "a-" ≠ localRootSpec "a-" ∧
      localRootSpec "a-" = "a-" ∧ localRootName "a-" = "a" := by
  refine ⟨?_, rfl, rfl⟩
  decide


/-! ## Branch equations for the traversal functions -/

theorem runLoop_zero (env : Env) (cgi outDir : String) (st : St) :
    runLoop env cgi outDir 0 st = none := rfl

theorem runLoop_nil (env : Env) (cgi outDir : String) (fuel : Nat) (st : St)
    (h : st.queue = []) : runLoop env cgi outDir (fuel + 1) st = some st := by
  simp only [runLoop, h]

theorem runLoop_cons (env : Env) (cgi outDir : String) (fuel : Nat) (st : St)
    (url repo lrel : String) (rest : List Node)
    (h : st.queue = (url, repo, lrel) :: rest) :
    runLoop env cgi outDir (fuel + 1) st =
      runLoop env cgi outDir fuel (stepNode env cgi outDir url repo lrel rest st) := by
  simp only [runLoop, h]

theorem stepNode_visited (env : Env) (cgi outDir url repo lrel : String)
    (rest : List Node) (st : St) (h : url ∈ st.visited) :
    stepNode env cgi outDir url repo lrel rest st = { st with queue := rest } := by
  simp only [stepNode, if_pos h]

theorem stepNode_nofetch (env : Env) (cgi outDir url repo lrel : String)
    (rest : List Node) (st : St) (h : url ∉ st.visited) (hp : env.pages url = none) :
    stepNode env cgi outDir url repo lrel rest st =
      { st with queue := rest, visited := url :: st.visited,
                fetched := st.fetched ++ [url] } := by
  simp only [stepNode, if_neg h, hp]

theorem stepNode_page (env : Env) (cgi outDir url repo lrel : String)
    (rest : List Node) (st : St) (page : Page)
    (h : url ∉ st.visited) (hp : env.pages url = some page) :
    stepNode env cgi outDir url repo lrel rest st =
      (let st1 : St := { st with queue := rest, visited := url :: st.visited,
                                 fetched := st.fetched ++ [url] }
       match mkDirStep env (pjoin outDir lrel) st1 with
       | none => st1
       | some st2 => listingPhase env cgi url repo lrel (pjoin outDir lrel) page st2) := by
  simp only [stepNode, if_neg h, hp]

theorem processFile_skip (env : Env) (cgi lf repo disp : String) (rb : Option String)
    (st : St) (h : truthyS (fsLookup st.files (pjoin lf disp)) = true) :
    processFile env cgi lf repo disp rb st =
      { st with fpaths := st.fpaths ++ [pjoin lf disp],
                skippedFiles := st.skippedFiles + 1 } := by
  simp only [processFile, h, if_pos]

theorem processFile_norev (env : Env) (cgi lf repo disp : String) (rb : Option String)
    (st : St) (h : truthyS (fsLookup st.files (pjoin lf disp)) = false)
    (hr : truthyS rb = false) :
    processFile env cgi lf repo disp rb st =
      { st with fpaths := st.fpaths ++ [pjoin lf disp],
                errors := st.errors ++ [("latest revision error", disp)] } := by
  simp only [processFile, h, hr]
  rfl

theorem processFile_dlfail (env : Env) (cgi lf repo disp rev : String)
    (st : St) (att : List (Bool × String)) (url : String) (c : Option String)
    (h : truthyS (fsLookup st.files (pjoin lf disp)) = false)
    (hrev : rev ≠ "")
    (ht : tryStrategies env cgi rev (stripSlashBoth repo) = (att, url, c))
    (hc : truthyS c = false) :
    processFile env cgi lf repo disp (some rev) st =
      { st with fpaths := st.fpaths ++ [pjoin lf disp],
                dlAttempts := st.dlAttempts ++ att,
                errors := st.errors ++ [("download error", url)] } := by
  have hr : truthyS (some rev) = true := by simpa [truthyS] using hrev
  simp only [processFile, h, hr, ht]
  cases c with
  | none => rfl
  | some cc =>
    have : cc = "" := by by_contra hne; simp [truthyS, hne] at hc
    subst this
    rfl

theorem processFile_saveerr (env : Env) (cgi lf repo disp rev : String)
    (st : St) (att : List (Bool × String)) (url : String) (cc : String)
    (h : truthyS (fsLookup st.files (pjoin lf disp)) = false)
    (hrev : rev ≠ "")
    (ht : tryStrategies env cgi rev (stripSlashBoth repo) = (att, url, some cc))
    (hc : cc ≠ "")
    (hs : env.saveOk (pjoin lf disp) = false) :
    processFile env cgi lf repo disp (some rev) st =
      { st with fpaths := st.fpaths ++ [pjoin lf disp],
                dlAttempts := st.dlAttempts ++ att,
                errors := st.errors ++ [("save error", url)] } := by
  have hr : truthyS (some rev) = true := by simpa [truthyS] using hrev
  simp only [processFile, h, hr, ht]
  simp only [if_pos hc, hs]
  rfl

theorem processFile_save (env : Env) (cgi lf repo disp rev : String)
    (st : St) (att : List (Bool × String)) (url : String) (cc : String)
    (h : truthyS (fsLookup st.files (pjoin lf disp)) = false)
    (hrev : rev ≠ "")
    (ht : tryStrategies env cgi rev (stripSlashBoth repo) = (att, url, some cc))
    (hc : cc ≠ "")
    (hs : env.saveOk (pjoin lf disp) = true) :
    processFile env cgi lf repo disp (some rev) st =
      { st with fpaths := st.fpaths ++ [pjoin lf disp],
                dlAttempts := st.dlAttempts ++ att,
                files := (pjoin lf disp, cc) :: st.files,
                writes := st.writes ++ [pjoin lf disp],
                savedFiles := st.savedFiles + 1 } := by
  have hr : truthyS (some rev) = true := by simpa [truthyS] using hrev
  simp only [processFile, h, hr, ht]
  simp only [if_pos hc, hs]
  rfl


theorem mkDirStep_skip (env : Env) (p : String) (st : St)
    (h : rstripSlash p ∈ st.dirs) :
    mkDirStep env p st = some { st with skippedDirs := st.skippedDirs + 1 } := by
  simp only [mkDirStep, if_pos h]

theorem mkDirStep_create (env : Env) (p : String) (st : St)
    (h : rstripSlash p ∉ st.dirs) (hm : env.mkdirOk (rstripSlash p) = true) :
    mkDirStep env p st =
      some { st with dirs := rstripSlash p :: st.dirs, savedDirs := st.savedDirs + 1 } := by
  simp only [mkDirStep, if_neg h, hm, if_pos]

theorem mkDirStep_fail (env : Env) (p : String) (st : St)
    (h : rstripSlash p ∉ st.dirs) (hm : env.mkdirOk (rstripSlash p) = false) :
    mkDirStep env p st = none := by
  simp only [mkDirStep, if_neg h, hm]
  rfl

theorem listingPhase_nomenu (env : Env) (cgi url repo lrel lf : String) (page : Page)
    (st : St) (h : page.menu = none) :
    listingPhase env cgi url repo lrel lf page st = st := by
  simp only [listingPhase, h]

theorem listingPhase_menu (env : Env) (cgi url repo lrel lf : String) (page : Page)
    (entries : List Entry) (st : St) (h : page.menu = some entries) :
    listingPhase env cgi url repo lrel lf page st =
      entries.foldl (processEntry env cgi url repo lrel lf) st := by
  simp only [listingPhase, h]

theorem processEntry_nohref (env : Env) (cgi u r l lf : String) (st : St) (e : Entry)
    (h : e.href = none) : processEntry env cgi u r l lf st e = st := by
  simp only [processEntry, h]

theorem processEntry_nodot (env : Env) (cgi u r l lf : String) (st : St) (e : Entry)
    (hv : String) (h : e.href = some hv) (hs : sStarts "./" hv = false) :
    processEntry env cgi u r l lf st e = st := by
  simp only [processEntry, h, hs]
  rfl

theorem processEntry_chrome (env : Env) (cgi u r l lf : String) (st : St) (e : Entry)
    (hv : String) (h : e.href = some hv) (hs : sStarts "./" hv = true)
    (hf : displayedNameOf env hv = "" ∨ sLower (displayedNameOf env hv) ∈ ignoredNames) :
    processEntry env cgi u r l lf st e = st := by
  simp only [processEntry, h, hs, if_pos hf]
  rfl

theorem processEntry_dir (env : Env) (cgi u r l lf : String) (st : St) (e : Entry)
    (hv : String) (h : e.href = some hv) (hs : sStarts "./" hv = true)
    (hf : ¬ (displayedNameOf env hv = "" ∨ sLower (displayedNameOf env hv) ∈ ignoredNames))
    (ha : sUpper e.alt = "[DIR]") :
    processEntry env cgi u r l lf st e =
      { st with queue := st.queue ++ [dirNodeOf env u r l hv] } := by
  simp only [processEntry, h, hs, if_neg hf, ha]
  rfl

theorem processEntry_txt (env : Env) (cgi u r l lf : String) (st : St) (e : Entry)
    (hv : String) (h : e.href = some hv) (hs : sStarts "./" hv = true)
    (hf : ¬ (displayedNameOf env hv = "" ∨ sLower (displayedNameOf env hv) ∈ ignoredNames))
    (ha : sUpper e.alt = "[TXT]") :
    processEntry env cgi u r l lf st e =
      processFile env cgi lf (env.urljoin r (nodeNameOf hv)) (displayedNameOf env hv)
        e.revBold st := by
  have hda : sUpper e.alt = "[DIR]" → False := by
    intro hd; rw [hd] at ha; exact absurd ha (by decide)
  simp only [processEntry, h, hs, if_neg hf, if_neg hda, ha]
  rfl

theorem processEntry_other (env : Env) (cgi u r l lf : String) (st : St) (e : Entry)
    (hv : String) (h : e.href = some hv) (hs : sStarts "./" hv = true)
    (hf : ¬ (displayedNameOf env hv = "" ∨ sLower (displayedNameOf env hv) ∈ ignoredNames))
    (hd : sUpper e.alt ≠ "[DIR]") (ht : sUpper e.alt ≠ "[TXT]") :
    processEntry env cgi u r l lf st e = st := by
  simp only [processEntry, h, hs, if_neg hf, if_neg hd, if_neg ht]
  rfl


/-! ## Case eliminators -/

/-- Exhaustive case analysis for `processFile`. -/
theorem processFile_cases (env : Env) (cgi lf repo disp : String) (rb : Option String)
    (st : St) (P : St → Prop)
    (hskip : truthyS (fsLookup st.files (pjoin lf disp)) = true →
      P { st with fpaths := st.fpaths ++ [pjoin lf disp],
                  skippedFiles := st.skippedFiles + 1 })
    (hnorev : truthyS (fsLookup st.files (pjoin lf disp)) = false → truthyS rb = false →
      P { st with fpaths := st.fpaths ++ [pjoin lf disp],
                  errors := st.errors ++ [("latest revision error", disp)] })
    (hdlfail : ∀ rev att url c, rb = some rev → rev ≠ "" →
      truthyS (fsLookup st.files (pjoin lf disp)) = false →
      tryStrategies env cgi rev (stripSlashBoth repo) = (att, url, c) →
      truthyS c = false →
      P { st with fpaths := st.fpaths ++ [pjoin lf disp],
                  dlAttempts := st.dlAttempts ++ att,
                  errors := st.errors ++ [("download error", url)] })
    (hsaveerr : ∀ rev att url cc, rb = some rev → rev ≠ "" →
      truthyS (fsLookup st.files (pjoin lf disp)) = false →
      tryStrategies env cgi rev (stripSlashBoth repo) = (att, url, some cc) →
      cc ≠ "" → env.saveOk (pjoin lf disp) = false →
      P { st with fpaths := st.fpaths ++ [pjoin lf disp],
                  dlAttempts := st.dlAttempts ++ att,
                  errors := st.errors ++ [("save error", url)] })
    (hsave : ∀ rev att url cc, rb = some rev → rev ≠ "" →
      truthyS (fsLookup st.files (pjoin lf disp)) = false →
      tryStrategies env cgi rev (stripSlashBoth repo) = (att, url, some cc) →
      cc ≠ "" → env.saveOk (pjoin lf disp) = true →
      P { st with fpaths := st.fpaths ++ [pjoin lf disp],
                  dlAttempts := st.dlAttempts ++ att,
                  files := (pjoin lf disp, cc) :: st.files,
                  writes := st.writes ++ [pjoin lf disp],
                  savedFiles := st.savedFiles + 1 }) :
    P (processFile env cgi lf repo disp rb st) := by
  by_cases h : truthyS (fsLookup st.files (pjoin lf disp)) = true
  · rw [processFile_skip env cgi lf repo disp rb st h]
    exact hskip h
  · have h' : truthyS (fsLookup st.files (pjoin lf disp)) = false := by
      simpa using h
    by_cases hr : truthyS rb = true
    · obtain ⟨rev, rfl, hne⟩ : ∃ rev, rb = some rev ∧ rev ≠ "" := by
        cases rb with
        | none => simp [truthyS] at hr
        | some v => exact ⟨v, rfl, by simpa [truthyS] using hr⟩
      rcases htS : tryStrategies env cgi rev (stripSlashBoth repo) with ⟨att, url, c⟩
      by_cases hc : truthyS c = true
      · obtain ⟨cc, rfl, hcc⟩ : ∃ cc, c = some cc ∧ cc ≠ "" := by
          cases c with
          | none => simp [truthyS] at hc
          | some v => exact ⟨v, rfl, by simpa [truthyS] using hc⟩
        by_cases hs : env.saveOk (pjoin lf disp) = true
        · rw [processFile_save env cgi lf repo disp rev st att url cc h' hne htS hcc hs]
          exact hsave rev att url cc rfl hne h' htS hcc hs
        · have hs' : env.saveOk (pjoin lf disp) = false := by simpa using hs
          rw [processFile_saveerr env cgi lf repo disp rev st att url cc h' hne htS hcc hs']
          exact hsaveerr rev att url cc rfl hne h' htS hcc hs'
      · have hc' : truthyS c = false := by simpa using hc
        rw [processFile_dlfail env cgi lf repo disp rev st att url c h' hne htS hc']
        exact hdlfail rev att url c rfl hne h' htS hc'
    · have hr' : truthyS rb = false := by simpa using hr
      rw [processFile_norev env cgi lf repo disp rb st h' hr']
      exact hnorev h' hr'

/-- Exhaustive case analysis for `processEntry`, carrying the branch
conditions. -/
theorem processEntry_cases (env : Env) (cgi u r l lf : String) (st : St) (e : Entry)
    (P : St → Prop)
    (hnohref : e.href = none → P st)
    (hnodot : ∀ hv, e.href = some hv → sStarts "./" hv = false → P st)
    (hchrome : ∀ hv, e.href = some hv → sStarts "./" hv = true →
      (displayedNameOf env hv = "" ∨ sLower (displayedNameOf env hv) ∈ ignoredNames) → P st)
    (hother : ∀ hv, e.href = some hv → sStarts "./" hv = true →
      ¬ (displayedNameOf env hv = "" ∨ sLower (displayedNameOf env hv) ∈ ignoredNames) →
      sUpper e.alt ≠ "[DIR]" → sUpper e.alt ≠ "[TXT]" → P st)
    (hdir : ∀ hv, e.href = some hv → sStarts "./" hv = true →
      ¬ (displayedNameOf env hv = "" ∨ sLower (displayedNameOf env hv) ∈ ignoredNames) →
      sUpper e.alt = "[DIR]" →
      P { st with queue := st.queue ++ [dirNodeOf env u r l hv] })
    (htxt : ∀ hv, e.href = some hv → sStarts "./" hv = true →
      ¬ (displayedNameOf env hv = "" ∨ sLower (displayedNameOf env hv) ∈ ignoredNames) →
      sUpper e.alt = "[TXT]" →
      P (processFile env cgi lf (env.urljoin r (nodeNameOf hv)) (displayedNameOf env hv)
          e.revBold st)) :
    P (processEntry env cgi u r l lf st e) := by
  cases hh : e.href with
  | none => rw [processEntry_nohref env cgi u r l lf st e hh]; exact hnohref hh
  | some hv =>
    by_cases hs : sStarts "./" hv = true
    · by_cases hf : displayedNameOf env hv = "" ∨ sLower (displayedNameOf env hv) ∈ ignoredNames
      · rw [processEntry_chrome env cgi u r l lf st e hv hh hs hf]
        exact hchrome hv hh hs hf
      · by_cases hd : sUpper e.alt = "[DIR]"
        · rw [processEntry_dir env cgi u r l lf st e hv hh hs hf hd]
          exact hdir hv hh hs hf hd
        · by_cases ht : sUpper e.alt = "[TXT]"
          · rw [processEntry_txt env cgi u r l lf st e hv hh hs hf ht]
            exact htxt hv hh hs hf ht
          · rw [processEntry_other env cgi u r l lf st e hv hh hs hf hd ht]
            exact hother hv hh hs hf hd ht
    · have hs' : sStarts "./" hv = false := by simpa using hs
      rw [processEntry_nodot env cgi u r l lf st e hv hh hs']
      exact hnodot hv hh hs'

/-! ## Filesystem lookup lemmas -/

theorem fsLookup_cons_self (p c : String) (fs : List (String × String)) :
    fsLookup ((p, c) :: fs) p = some c := by
  simp [fsLookup, List.find?]

theorem fsLookup_cons_ne (p c q : String) (fs : List (String × String)) (h : q ≠ p) :
    fsLookup ((p, c) :: fs) q = fsLookup fs q := by
  have hb : ((p, c).1 == q) = false := by
    simp [h.symm]
  simp [fsLookup, List.find?, hb]

/-! ## Evolution lemmas -/

theorem evolves_of_fields (env : Env) (s s' : St) (h1 : s'.fpaths = s.fpaths)
    (h2 : s'.writes = s.writes) (h3 : s'.files = s.files) (h4 : s'.dirs = s.dirs) :
    Evolves env s s' := by
  refine ⟨[], [], by simp [h1], by simp [h2], by simp, by simp [h3], ?_, ?_⟩
  · intro x hx; rw [h4]; exact hx
  · intro x hx; rw [h4] at hx; exact Or.inl hx

theorem evolves_refl (env : Env) (s : St) : Evolves env s s :=
  evolves_of_fields env s s rfl rfl rfl rfl

theorem evolves_trans {env : Env} {a b c : St} (h1 : Evolves env a b)
    (h2 : Evolves env b c) : Evolves env a c := by
  obtain ⟨t1, w1, hf1, hw1, hs1, ht1, hd1, he1⟩ := h1
  obtain ⟨t2, w2, hf2, hw2, hs2, ht2, hd2, he2⟩ := h2
  refine ⟨t1 ++ t2, w1 ++ w2, ?_, ?_, ?_, ?_, ?_, ?_⟩
  · rw [hf2, hf1, List.append_assoc]
  · rw [hw2, hw1, List.append_assoc]
  · intro p hp
    rcases List.mem_append.mp hp with h | h
    · exact List.mem_append.mpr (Or.inl (hs1 p h))
    · exact List.mem_append.mpr (Or.inr (hs2 p h))
  · intro p
    rw [ht2 p, ht1 p, List.mem_append]
    tauto
  · intro x hx; exact hd2 x (hd1 x hx)
  · intro x hx
    rcases he2 x hx with h | h
    · rcases he1 x h with h' | h'
      · exact Or.inl h'
      · exact Or.inr h'
    · exact Or.inr h

theorem processFile_evolves (env : Env) (cgi lf repo disp : String) (rb : Option String)
    (st : St) : Evolves env st (processFile env cgi lf repo disp rb st) := by
  apply processFile_cases env cgi lf repo disp rb st (Evolves env st)
  · intro _
    exact ⟨[pjoin lf disp], [], rfl, by simp, by simp, by simp, fun x h => h,
      fun x h => Or.inl h⟩
  · intro _ _
    exact ⟨[pjoin lf disp], [], rfl, by simp, by simp, by simp, fun x h => h,
      fun x h => Or.inl h⟩
  · intro rev att url c _ _ _ _ _
    exact ⟨[pjoin lf disp], [], rfl, by simp, by simp, by simp, fun x h => h,
      fun x h => Or.inl h⟩
  · intro rev att url cc _ _ _ _ _ _
    exact ⟨[pjoin lf disp], [], rfl, by simp, by simp, by simp, fun x h => h,
      fun x h => Or.inl h⟩
  · intro rev att url cc _ _ _ _ hcc _
    refine ⟨[pjoin lf disp], [pjoin lf disp], rfl, rfl, by simp, ?_, fun x h => h,
      fun x h => Or.inl h⟩
    intro q
    by_cases hq : q = pjoin lf disp
    · subst hq
      rw [fsLookup_cons_self]
      simp [truthyS, hcc]
    · rw [fsLookup_cons_ne _ _ _ _ hq]
      simp [hq]

theorem processEntry_evolves (env : Env) (cgi u r l lf : String) (st : St) (e : Entry) :
    Evolves env st (processEntry env cgi u r l lf st e) := by
  apply processEntry_cases env cgi u r l lf st e (Evolves env st)
  · intro _; exact evolves_refl env st
  · intro _ _ _; exact evolves_refl env st
  · intro _ _ _ _; exact evolves_refl env st
  · intro _ _ _ _ _ _; exact evolves_refl env st
  · intro hv _ _ _ _
    exact evolves_of_fields env st _ rfl rfl rfl rfl
  · intro hv _ _ _ _
    exact processFile_evolves env cgi lf (env.urljoin r (nodeNameOf hv))
      (displayedNameOf env hv) e.revBold st


theorem foldEntries_evolves (env : Env) (cgi u r l lf : String) :
    ∀ (es : List Entry) (st : St),
      Evolves env st (es.foldl (processEntry env cgi u r l lf) st) := by
  intro es
  induction es with
  | nil => intro st; exact evolves_refl env st
  | cons e es ih =>
    intro st
    have h1 := processEntry_evolves env cgi u r l lf st e
    have h2 := ih (processEntry env cgi u r l lf st e)
    simpa using evolves_trans h1 h2

theorem mkDirStep_evolves (env : Env) (p : String) (st st2 : St)
    (h : mkDirStep env p st = some st2) : Evolves env st st2 := by
  by_cases hd : rstripSlash p ∈ st.dirs
  · rw [mkDirStep_skip env p st hd] at h
    obtain rfl := Option.some_inj.mp h
    exact evolves_of_fields env st _ rfl rfl rfl rfl
  · by_cases hm : env.mkdirOk (rstripSlash p) = true
    · rw [mkDirStep_create env p st hd hm] at h
      obtain rfl := Option.some_inj.mp h
      refine ⟨[], [], by simp, by simp, by simp, by simp, ?_, ?_⟩
      · intro x hx; exact List.mem_cons_of_mem _ hx
      · intro x hx
        rcases List.mem_cons.mp hx with rfl | hx
        · exact Or.inr hm
        · exact Or.inl hx
    · have hm' : env.mkdirOk (rstripSlash p) = false := by simpa using hm
      rw [mkDirStep_fail env p st hd hm'] at h
      cases h

theorem stepNode_evolves (env : Env) (cgi outDir url repo lrel : String)
    (rest : List Node) (st : St) :
    Evolves env st (stepNode env cgi outDir url repo lrel rest st) := by
  by_cases hv : url ∈ st.visited
  · rw [stepNode_visited env cgi outDir url repo lrel rest st hv]
    exact evolves_of_fields env st _ rfl rfl rfl rfl
  · cases hp : env.pages url with
    | none =>
      rw [stepNode_nofetch env cgi outDir url repo lrel rest st hv hp]
      exact evolves_of_fields env st _ rfl rfl rfl rfl
    | some page =>
      rw [stepNode_page env cgi outDir url repo lrel rest st page hv hp]
      have hst1 : Evolves env st
          ({ st with queue := rest, visited := url :: st.visited,
                     fetched := st.fetched ++ [url] } : St) :=
        evolves_of_fields env st _ rfl rfl rfl rfl
      cases hmk : mkDirStep env (pjoin outDir lrel)
          ({ st with queue := rest, visited := url :: st.visited,
                     fetched := st.fetched ++ [url] } : St) with
      | none => simpa [hmk] using hst1
      | some st2 =>
        have h2 := mkDirStep_evolves env (pjoin outDir lrel) _ st2 hmk
        have h3 : Evolves env st st2 := evolves_trans hst1 h2
        cases hm : page.menu with
        | none =>
          simpa [hmk, listingPhase, hm] using h3
        | some entries =>
          have h4 := foldEntries_evolves env cgi url repo lrel (pjoin outDir lrel) entries st2
          simpa [hmk, listingPhase, hm] using evolves_trans h3 h4

theorem runLoop_evolves (env : Env) (cgi outDir : String) :
    ∀ (fuel : Nat) (st st' : St), runLoop env cgi outDir fuel st = some st' →
      Evolves env st st' := by
  intro fuel
  induction fuel with
  | zero => intro st st' h; cases h
  | succ n ih =>
    intro st st' h
    cases hq : st.queue with
    | nil =>
      rw [runLoop_nil env cgi outDir n st hq] at h
      obtain rfl := Option.some_inj.mp h
      exact evolves_refl env st
    | cons nd rest =>
      obtain ⟨url, repo, lrel⟩ := nd
      rw [runLoop_cons env cgi outDir n st url repo lrel rest hq] at h
      exact evolves_trans (stepNode_evolves env cgi outDir url repo lrel rest st) (ih _ _ h)


/-! ## Untouched-field lemmas -/

theorem processFile_keeps (env : Env) (cgi lf repo disp : String) (rb : Option String)
    (st : St) :
    (processFile env cgi lf repo disp rb st).queue = st.queue ∧
    (processFile env cgi lf repo disp rb st).visited = st.visited ∧
    (processFile env cgi lf repo disp rb st).fetched = st.fetched ∧
    (processFile env cgi lf repo disp rb st).dirs = st.dirs ∧
    (processFile env cgi lf repo disp rb st).savedDirs = st.savedDirs ∧
    (processFile env cgi lf repo disp rb st).skippedDirs = st.skippedDirs := by
  apply processFile_cases env cgi lf repo disp rb st
    (fun s => s.queue = st.queue ∧ s.visited = st.visited ∧ s.fetched = st.fetched ∧
      s.dirs = st.dirs ∧ s.savedDirs = st.savedDirs ∧ s.skippedDirs = st.skippedDirs)
  · intro _; exact ⟨rfl, rfl, rfl, rfl, rfl, rfl⟩
  · intro _ _; exact ⟨rfl, rfl, rfl, rfl, rfl, rfl⟩
  · intro _ _ _ _ _ _ _ _ _; exact ⟨rfl, rfl, rfl, rfl, rfl, rfl⟩
  · intro _ _ _ _ _ _ _ _ _ _; exact ⟨rfl, rfl, rfl, rfl, rfl, rfl⟩
  · intro _ _ _ _ _ _ _ _ _ _; exact ⟨rfl, rfl, rfl, rfl, rfl, rfl⟩

theorem processEntry_keeps (env : Env) (cgi u r l lf : String) (st : St) (e : Entry) :
    (processEntry env cgi u r l lf st e).visited = st.visited ∧
    (processEntry env cgi u r l lf st e).fetched = st.fetched ∧
    (processEntry env cgi u r l lf st e).dirs = st.dirs ∧
    (processEntry env cgi u r l lf st e).savedDirs = st.savedDirs ∧
    (processEntry env cgi u r l lf st e).skippedDirs = st.skippedDirs := by
  apply processEntry_cases env cgi u r l lf st e
    (fun s => s.visited = st.visited ∧ s.fetched = st.fetched ∧
      s.dirs = st.dirs ∧ s.savedDirs = st.savedDirs ∧ s.skippedDirs = st.skippedDirs)
  · intro _; exact ⟨rfl, rfl, rfl, rfl, rfl⟩
  · intro _ _ _; exact ⟨rfl, rfl, rfl, rfl, rfl⟩
  · intro _ _ _ _; exact ⟨rfl, rfl, rfl, rfl, rfl⟩
  · intro _ _ _ _ _ _; exact ⟨rfl, rfl, rfl, rfl, rfl⟩
  · intro _ _ _ _ _; exact ⟨rfl, rfl, rfl, rfl, rfl⟩
  · intro hv _ _ _ _
    have h := processFile_keeps env cgi lf (env.urljoin r (nodeNameOf hv))
      (displayedNameOf env hv) e.revBold st
    exact ⟨h.2.1, h.2.2.1, h.2.2.2.1, h.2.2.2.2.1, h.2.2.2.2.2⟩

theorem foldEntries_keeps (env : Env) (cgi u r l lf : String) :
    ∀ (es : List Entry) (st : St),
      (es.foldl (processEntry env cgi u r l lf) st).visited = st.visited ∧
      (es.foldl (processEntry env cgi u r l lf) st).fetched = st.fetched ∧
      (es.foldl (processEntry env cgi u r l lf) st).dirs = st.dirs ∧
      (es.foldl (processEntry env cgi u r l lf) st).savedDirs = st.savedDirs ∧
      (es.foldl (processEntry env cgi u r l lf) st).skippedDirs = st.skippedDirs := by
  intro es
  induction es with
  | nil => intro st; exact ⟨rfl, rfl, rfl, rfl, rfl⟩
  | cons e es ih =>
    intro st
    have h1 := processEntry_keeps env cgi u r l lf st e
    have h2 := ih (processEntry env cgi u r l lf st e)
    simp only [List.foldl_cons]
    exact ⟨h2.1.trans h1.1, h2.2.1.trans h1.2.1, h2.2.2.1.trans h1.2.2.1,
      h2.2.2.2.1.trans h1.2.2.2.1, h2.2.2.2.2.trans h1.2.2.2.2⟩

theorem stepNode_trace (env : Env) (cgi outDir url repo lrel : String)
    (rest : List Node) (st : St) (h : url ∉ st.visited) :
    (stepNode env cgi outDir url repo lrel rest st).fetched = st.fetched ++ [url] ∧
    (stepNode env cgi outDir url repo lrel rest st).visited = url :: st.visited := by
  cases hp : env.pages url with
  | none => rw [stepNode_nofetch env cgi outDir url repo lrel rest st h hp]; exact ⟨rfl, rfl⟩
  | some page =>
    rw [stepNode_page env cgi outDir url repo lrel rest st page h hp]
    cases hmk : mkDirStep env (pjoin outDir lrel)
        ({ st with queue := rest, visited := url :: st.visited,
                   fetched := st.fetched ++ [url] } : St) with
    | none => simp [hmk]
    | some st2 =>
      have hks : st2.fetched = st.fetched ++ [url] ∧ st2.visited = url :: st.visited := by
        by_cases hd : rstripSlash (pjoin outDir lrel) ∈
            ({ st with queue := rest, visited := url :: st.visited,
                       fetched := st.fetched ++ [url] } : St).dirs
        · rw [mkDirStep_skip _ _ _ hd] at hmk
          obtain rfl := Option.some_inj.mp hmk
          exact ⟨rfl, rfl⟩
        · by_cases hm : env.mkdirOk (rstripSlash (pjoin outDir lrel)) = true
          · rw [mkDirStep_create _ _ _ hd hm] at hmk
            obtain rfl := Option.some_inj.mp hmk
            exact ⟨rfl, rfl⟩
          · have hm' : env.mkdirOk (rstripSlash (pjoin outDir lrel)) = false := by simpa using hm
            rw [mkDirStep_fail _ _ _ hd hm'] at hmk
            cases hmk
      cases hm2 : page.menu with
      | none => simp [hmk, listingPhase, hm2, hks.1, hks.2]
      | some entries =>
        have hk := foldEntries_keeps env cgi url repo lrel (pjoin outDir lrel) entries st2
        simp [hmk, listingPhase, hm2]
        exact ⟨hk.2.1.trans hks.1, hk.1.trans hks.2⟩



/-! ## Initialisation lemmas -/

theorem initRun_build (env : Env) (full_url : String) (F : List (String × String))
    (D : List String) (p0 p1 : String) (ps : List String)
    (hsp : sSplitOn "cvsweb.cgi" full_url = p0 :: p1 :: ps)
    (hne : lstripSlash p1 ≠ "")
    (hd : rstripSlash (localRootName (lstripSlash p1)) ∈ D) :
    initRun env full_url F D = some (p0 ++ "cvsweb.cgi", localRootName (lstripSlash p1),
      { St.empty with
          queue := [(rstripSlash (p0 ++ "cvsweb.cgi") ++ "/" ++ lstripSlash (remotePathOf p1),
                     remotePathOf p1, "")],
          files := F, dirs := D }) := by
  simp only [initRun, hsp]
  rw [if_pos hd]
  simp only [if_neg hne]

theorem initRun_proj (env : Env) (full_url : String) (files0 : List (String × String))
    (dirs0 : List String) (cgi outDir : String) (st0 : St)
    (h : initRun env full_url files0 dirs0 = some (cgi, outDir, st0)) :
    st0.visited = [] ∧ st0.fetched = [] ∧ st0.fpaths = [] ∧ st0.writes = [] ∧
    st0.savedFiles = 0 ∧ st0.skippedFiles = 0 ∧ st0.files = files0 ∧
    rstripSlash outDir ∈ st0.dirs ∧
    ∃ p0 p1 ps, sSplitOn "cvsweb.cgi" full_url = p0 :: p1 :: ps ∧
      cgi = p0 ++ "cvsweb.cgi" ∧ outDir = localRootName (lstripSlash p1) ∧
      lstripSlash p1 ≠ "" ∧
      st0 = { St.empty with
        queue := [(rstripSlash cgi ++ "/" ++ lstripSlash (remotePathOf p1),
                   remotePathOf p1, "")],
        files := files0, dirs := st0.dirs } := by
  simp only [initRun] at h
  cases hsp : sSplitOn "cvsweb.cgi" full_url with
  | nil => rw [hsp] at h; cases h
  | cons p0 ps =>
    cases ps with
    | nil => rw [hsp] at h; cases h
    | cons p1 ps' =>
      rw [hsp] at h
      dsimp only at h
      by_cases hne : lstripSlash p1 = ""
      · by_cases hd : rstripSlash (localRootName (lstripSlash p1)) ∈ dirs0
        · rw [if_pos hd] at h
          dsimp only at h
          rw [if_pos hne] at h
          cases h
        · rw [if_neg hd] at h
          by_cases hm : env.mkdirOk (rstripSlash (localRootName (lstripSlash p1))) = true
          · rw [if_pos hm] at h
            dsimp only at h
            rw [if_pos hne] at h
            cases h
          · rw [if_neg hm] at h
            cases h
      · by_cases hd : rstripSlash (localRootName (lstripSlash p1)) ∈ dirs0
        · rw [if_pos hd] at h
          dsimp only at h
          rw [if_neg hne] at h
          obtain ⟨h1, h2, h3⟩ : p0 ++ "cvsweb.cgi" = cgi ∧ localRootName (lstripSlash p1) = outDir ∧
              ({ St.empty with
                  queue := [(rstripSlash (p0 ++ "cvsweb.cgi") ++ "/" ++
                             lstripSlash (remotePathOf p1), remotePathOf p1, "")],
                  files := files0, dirs := dirs0 } : St) = st0 := by
            simpa [Prod.ext_iff] using h
          subst h1; subst h2; subst h3
          exact ⟨rfl, rfl, rfl, rfl, rfl, rfl, rfl, hd, p0, p1, ps', rfl, rfl, rfl, hne, rfl⟩
        · rw [if_neg hd] at h
          by_cases hm : env.mkdirOk (rstripSlash (localRootName (lstripSlash p1))) = true
          · rw [if_pos hm] at h
            dsimp only at h
            rw [if_neg hne] at h
            obtain ⟨h1, h2, h3⟩ : p0 ++ "cvsweb.cgi" = cgi ∧
                localRootName (lstripSlash p1) = outDir ∧
                ({ St.empty with
                    queue := [(rstripSlash (p0 ++ "cvsweb.cgi") ++ "/" ++
                               lstripSlash (remotePathOf p1), remotePathOf p1, "")],
                    files := files0,
                    dirs := rstripSlash (localRootName (lstripSlash p1)) :: dirs0 } : St) = st0 := by
              simpa [Prod.ext_iff] using h
            subst h1; subst h2; subst h3
            refine ⟨rfl, rfl, rfl, rfl, rfl, rfl, rfl, List.mem_cons_self _ _,
              p0, p1, ps', rfl, rfl, rfl, hne, rfl⟩
          · rw [if_neg hm] at h
            cases h


/-! ## The visited-set property (claim C3) -/

theorem runLoop_fetched_nodup (env : Env) (cgi outDir : String) :
    ∀ (fuel : Nat) (st st' : St), runLoop env cgi outDir fuel st = some st' →
      st.fetched.Nodup → (∀ u ∈ st.fetched, u ∈ st.visited) → st'.fetched.Nodup := by
  intro fuel
  induction fuel with
  | zero => intro st st' h; cases h
  | succ n ih =>
    intro st st' h hnd hsub
    cases hq : st.queue with
    | nil =>
      rw [runLoop_nil env cgi outDir n st hq] at h
      obtain rfl := Option.some_inj.mp h
      exact hnd
    | cons nd rest =>
      obtain ⟨url, repo, lrel⟩ := nd
      rw [runLoop_cons env cgi outDir n st url repo lrel rest hq] at h
      by_cases hv : url ∈ st.visited
      · rw [stepNode_visited env cgi outDir url repo lrel rest st hv] at h
        exact ih _ _ h hnd hsub
      · have htr := stepNode_trace env cgi outDir url repo lrel rest st hv
        apply ih _ _ h
        · rw [htr.1, List.nodup_append]
          refine ⟨hnd, List.nodup_singleton url, ?_⟩
          intro a ha hb
          rw [List.mem_singleton] at hb
          subst hb
          exact hv (hsub a ha)
        · intro u hu
          rw [htr.1] at hu
          rw [htr.2]
          rcases List.mem_append.mp hu with h1 | h1
          · exact List.mem_cons_of_mem _ (hsub u h1)
          · rw [List.mem_singleton] at h1
            subst h1
            exact List.mem_cons_self _ _

/-- Claim C3: within one run, every remote listing URL value is fetched as a
directory listing at most once, even when several discovered directory
entries resolve to the same URL and it is therefore enqueued more than once:
the trace of fetched listing URLs has no duplicates. -/
theorem c3_fetch_at_most_once :
    ∀ (env : Env) (fuel : Nat) (full_url : String) (files0 : List (String × String))
      (dirs0 : List String) (fl : List String),
      (fetch_latest_snapshot env fuel full_url files0 dirs0).map St.fetched = some fl →
      fl.Nodup := by
  intro env fuel full_url files0 dirs0 fl h
  cases hrun : fetch_latest_snapshot env fuel full_url files0 dirs0 with
  | none => rw [hrun] at h; cases h
  | some r =>
    rw [hrun] at h
    obtain rfl : r.fetched = fl := by simpa using h
    simp only [fetch_latest_snapshot] at hrun
    cases hinit : initRun env full_url files0 dirs0 with
    | none => rw [hinit] at hrun; cases hrun
    | some tpl =>
      obtain ⟨cgi, outDir, st0⟩ := tpl
      rw [hinit] at hrun
      obtain ⟨hvis, hfet, _, _, _, _, _, _, _⟩ :=
        initRun_proj env full_url files0 dirs0 cgi outDir st0 hinit
      apply runLoop_fetched_nodup env cgi outDir fuel st0 r hrun
      · rw [hfet]; exact List.nodup_nil
      · intro u hu; rw [hfet] at hu; cases hu

/-- Witness for C3: the concrete single-listing oracle run. -/
theorem c3_fetch_at_most_once_witness : List.Nodup [urlB] :=
  c3_fetch_at_most_once envB 3 urlB [] [] [urlB] (by rfl)


/-- Claim C10: a listing entry whose icon label, uppercased, is neither
`[DIR]` nor `[TXT]` is silently ignored: the run state is unchanged — nothing
is enqueued, no download is attempted, no counter is incremented and no error
is recorded. -/
theorem c10_unknown_icon_ignored :
    ∀ (env : Env) (cgi u r l lf : String) (st : St) (e : Entry),
      sUpper e.alt ≠ "[DIR]" → sUpper e.alt ≠ "[TXT]" →
      processEntry env cgi u r l lf st e = st := by
  intro env cgi u r l lf st e hd ht
  apply processEntry_cases env cgi u r l lf st e (fun s => s = st)
  · intro _; rfl
  · intro _ _ _; rfl
  · intro _ _ _ _; rfl
  · intro _ _ _ _ _ _; rfl
  · intro _ _ _ _ hdd; exact absurd hdd hd
  · intro _ _ _ _ htt; exact absurd htt ht

/-- Witness for C10 at a concrete entry with icon label `[IMG]`. -/
theorem c10_unknown_icon_ignored_witness :
    processEntry envA "c" "u" "r" "l" "lf" St.empty
      { alt := "[IMG]", href := some "./x", revBold := none } = St.empty :=
  c10_unknown_icon_ignored envA "c" "u" "r" "l" "lf" St.empty
    { alt := "[IMG]", href := some "./x", revBold := none } (by decide) (by decide)

/-- Claim C4: for a file entry that reaches the download step, the markup
strategy is attempted before the checkout strategy; the first strategy
returning content wins and the other is not attempted; and when the markup
strategy returns no content while the checkout strategy returns content, the
file is saved, `files_saved` is incremented, and no error is recorded. -/
theorem c4_strategy_order :
    (∀ (env : Env) (cgi rev path : String),
      (tryStrategies env cgi rev path).1.head? =
        some (true, markup_view_url cgi rev path)) ∧
    (∀ (env : Env) (cgi rev path : String),
      truthyS (env.httpMarkup (markup_view_url cgi rev path)) = true →
      tryStrategies env cgi rev path =
        ([(true, markup_view_url cgi rev path)], markup_view_url cgi rev path,
          env.httpMarkup (markup_view_url cgi rev path))) ∧
    (∀ (env : Env) (cgi rev path : String),
      truthyS (env.httpMarkup (markup_view_url cgi rev path)) = false →
      tryStrategies env cgi rev path =
        ([(true, markup_view_url cgi rev path), (false, file_download_url cgi rev path)],
          file_download_url cgi rev path,
          env.httpCheckout (file_download_url cgi rev path))) ∧
    (∀ (env : Env) (cgi lf repo disp rev : String) (st : St) (cc : String),
      truthyS (fsLookup st.files (pjoin lf disp)) = false →
      rev ≠ "" →
      truthyS (env.httpMarkup (markup_view_url cgi rev (stripSlashBoth repo))) = false →
      env.httpCheckout (file_download_url cgi rev (stripSlashBoth repo)) = some cc →
      cc ≠ "" →
      env.saveOk (pjoin lf disp) = true →
      (processFile env cgi lf repo disp (some rev) st).savedFiles = st.savedFiles + 1 ∧
      (processFile env cgi lf repo disp (some rev) st).errors = st.errors ∧
      (processFile env cgi lf repo disp (some rev) st).files =
        (pjoin lf disp, cc) :: st.files ∧
      (processFile env cgi lf repo disp (some rev) st).dlAttempts =
        st.dlAttempts ++
          [(true, markup_view_url cgi rev (stripSlashBoth repo)),
           (false, file_download_url cgi rev (stripSlashBoth repo))]) := by
  have hfirst : ∀ (env : Env) (cgi rev path : String),
      (tryStrategies env cgi rev path).1.head? =
        some (true, markup_view_url cgi rev path) := by
    intro env cgi rev path
    by_cases hm : truthyS (env.httpMarkup (markup_view_url cgi rev path)) = true
    · simp [tryStrategies, fetch_file_content_markup, hm]
    · simp [tryStrategies, fetch_file_content_markup, fetch_file_content_checkout, hm]
  have hwin : ∀ (env : Env) (cgi rev path : String),
      truthyS (env.httpMarkup (markup_view_url cgi rev path)) = true →
      tryStrategies env cgi rev path =
        ([(true, markup_view_url cgi rev path)], markup_view_url cgi rev path,
          env.httpMarkup (markup_view_url cgi rev path)) := by
    intro env cgi rev path hm
    simp [tryStrategies, fetch_file_content_markup, hm]
  have hfall : ∀ (env : Env) (cgi rev path : String),
      truthyS (env.httpMarkup (markup_view_url cgi rev path)) = false →
      tryStrategies env cgi rev path =
        ([(true, markup_view_url cgi rev path), (false, file_download_url cgi rev path)],
          file_download_url cgi rev path,
          env.httpCheckout (file_download_url cgi rev path)) := by
    intro env cgi rev path hm
    simp [tryStrategies, fetch_file_content_markup, fetch_file_content_checkout, hm]
  refine ⟨hfirst, hwin, hfall, ?_⟩
  intro env cgi lf repo disp rev st cc hns hrev hm hc hcc hsv
  have ht : tryStrategies env cgi rev (stripSlashBoth repo) =
      ([(true, markup_view_url cgi rev (stripSlashBoth repo)),
        (false, file_download_url cgi rev (stripSlashBoth repo))],
        file_download_url cgi rev (stripSlashBoth repo), some cc) := by
    rw [hfall env cgi rev (stripSlashBoth repo) hm, hc]
  rw [processFile_save env cgi lf repo disp rev st _ _ cc hns hrev ht hcc hsv]
  exact ⟨rfl, rfl, rfl, rfl⟩

/-- Witness for C4 with the markup strategy empty and the checkout strategy
returning raw content. -/
theorem c4_strategy_order_witness :
    (processFile envD "http://h/cvsweb.cgi" "m" "m/a" "a" (some "1.1") St.empty).savedFiles =
        St.empty.savedFiles + 1 ∧
      (processFile envD "http://h/cvsweb.cgi" "m" "m/a" "a" (some "1.1") St.empty).errors =
        St.empty.errors ∧
      (processFile envD "http://h/cvsweb.cgi" "m" "m/a" "a" (some "1.1") St.empty).files =
        (pjoin "m" "a", "raw") :: St.empty.files ∧
      (processFile envD "http://h/cvsweb.cgi" "m" "m/a" "a" (some "1.1") St.empty).dlAttempts =
        St.empty.dlAttempts ++
          [(true, markup_view_url "http://h/cvsweb.cgi" "1.1" (stripSlashBoth "m/a")),
           (false, file_download_url "http://h/cvsweb.cgi" "1.1" (stripSlashBoth "m/a"))] :=
  c4_strategy_order.2.2.2 envD "http://h/cvsweb.cgi" "m" "m/a" "a" "1.1" St.empty "raw"
    (by decide) (by decide) (by rfl) (by rfl) (by decide) (by rfl)

/-- Claim C5 (amended): a discovered file entry with no usable latest
revision whose destination file is absent or empty is never written and
appends exactly one `('latest revision error', display name)` pair; when the
destination already exists non-empty the entry is skipped before the revision
check and no error is recorded. -/
theorem c5_missing_revision :
    ∀ (env : Env) (cgi lf repo disp : String) (rb : Option String) (st : St),
      truthyS (fsLookup st.files (pjoin lf disp)) = false →
      truthyS rb = false →
      (processFile env cgi lf repo disp rb st).errors =
        st.errors ++ [("latest revision error", disp)] ∧
      (processFile env cgi lf repo disp rb st).files = st.files ∧
      (processFile env cgi lf repo disp rb st).writes = st.writes ∧
      (processFile env cgi lf repo disp rb st).savedFiles = st.savedFiles := by
  intro env cgi lf repo disp rb st h hr
  rw [processFile_norev env cgi lf repo disp rb st h hr]
  exact ⟨rfl, rfl, rfl, rfl⟩

/-- Witness for C5 at a concrete entry without a revision marker. -/
theorem c5_missing_revision_witness :
    (processFile envA "c" "m" "m/b" "b" none St.empty).errors =
        St.empty.errors ++ [("latest revision error", "b")] ∧
      (processFile envA "c" "m" "m/b" "b" none St.empty).files = St.empty.files ∧
      (processFile envA "c" "m" "m/b" "b" none St.empty).writes = St.empty.writes ∧
      (processFile envA "c" "m" "m/b" "b" none St.empty).savedFiles = St.empty.savedFiles :=
  c5_missing_revision envA "c" "m" "m/b" "b" none St.empty (by decide) (by decide)

/-- Counterexample for C5 as stated: a discovered file entry with no latest
revision on the listing page whose destination already exists non-empty is
skipped, and no `latest revision error` pair is recorded for it — the claim's
"exactly one" fails. -/
theorem c5_missing_revision_counterexample :
    runC5.map St.fpaths = some ["m/a"] ∧
      runC5.map St.errors = some [] ∧
      runC5.map St.skippedFiles = some 1 := by
  exact ⟨rfl, rfl, rfl⟩

/-- Claim C6 (amended): when the listing-page fetch of a dequeued directory
node fails, the node is skipped before the directory-creation step: the local
directory is not created, no directory counter moves, and the loop continues
with the remaining queue. -/
theorem c6_fetch_fail_skips_dir :
    ∀ (env : Env) (cgi outDir url repo lrel : String) (rest : List Node) (st : St)
      (fuel : Nat),
      st.queue = (url, repo, lrel) :: rest → url ∉ st.visited → env.pages url = none →
      (stepNode env cgi outDir url repo lrel rest st).dirs = st.dirs ∧
      (stepNode env cgi outDir url repo lrel rest st).savedDirs = st.savedDirs ∧
      (stepNode env cgi outDir url repo lrel rest st).queue = rest ∧
      runLoop env cgi outDir (fuel + 1) st =
        runLoop env cgi outDir fuel (stepNode env cgi outDir url repo lrel rest st) := by
  intro env cgi outDir url repo lrel rest st fuel hq hv hp
  rw [stepNode_nofetch env cgi outDir url repo lrel rest st hv hp,
    runLoop_cons env cgi outDir fuel st url repo lrel rest hq,
    stepNode_nofetch env cgi outDir url repo lrel rest st hv hp]
  exact ⟨rfl, rfl, rfl, rfl⟩

/-- Witness for C6 at a concrete failing fetch. -/
theorem c6_fetch_fail_skips_dir_witness :
    (stepNode envA "c" "m" urlB "m/" "" [] { St.empty with queue := [(urlB, "m/", "")] }).dirs =
        ({ St.empty with queue := [(urlB, "m/", "")] } : St).dirs ∧
      (stepNode envA "c" "m" urlB "m/" "" []
          { St.empty with queue := [(urlB, "m/", "")] }).savedDirs =
        ({ St.empty with queue := [(urlB, "m/", "")] } : St).savedDirs ∧
      (stepNode envA "c" "m" urlB "m/" "" []
          { St.empty with queue := [(urlB, "m/", "")] }).queue = [] ∧
      runLoop envA "c" "m" 1 { St.empty with queue := [(urlB, "m/", "")] } =
        runLoop envA "c" "m" 0
          (stepNode envA "c" "m" urlB "m/" "" [] { St.empty with queue := [(urlB, "m/", "")] }) :=
  c6_fetch_fail_skips_dir envA "c" "m" urlB "m/" "" [] { St.empty with queue := [(urlB, "m/", "")] }
    0 rfl (by decide) rfl

/-- Counterexample for C6 as stated: the child listing fetch for `./sub/`
fails with a transport error, and the corresponding local directory `m/sub`
is NOT created — only the root directory exists afterwards. -/
theorem c6_fetch_fail_skips_dir_counterexample :
    envC6.pages "http://h/cvsweb.cgi/m/sub/" = none ∧
      runC6.map St.fetched = some [urlB, "http://h/cvsweb.cgi/m/sub/"] ∧
      runC6.map St.dirs = some ["m"] := by
  exact ⟨rfl, rfl, rfl⟩

/-- Claim C1 (amended): per-item failures during the traversal never abort
the run; the kinds {missing revision, download error, save error} each append
exactly one `(error kind, error context)` pair, while a transport error on a
directory-listing fetch and a missing listing structure are skipped without
appending anything. -/
theorem c1_error_policy :
    (∀ (env : Env) (cgi lf repo disp : String) (rb : Option String) (st : St),
      truthyS (fsLookup st.files (pjoin lf disp)) = false → truthyS rb = false →
      (processFile env cgi lf repo disp rb st).errors =
        st.errors ++ [("latest revision error", disp)]) ∧
    (∀ (env : Env) (cgi lf repo disp rev : String) (st : St)
      (att : List (Bool × String)) (url : String) (c : Option String),
      truthyS (fsLookup st.files (pjoin lf disp)) = false → rev ≠ "" →
      tryStrategies env cgi rev (stripSlashBoth repo) = (att, url, c) →
      truthyS c = false →
      (processFile env cgi lf repo disp (some rev) st).errors =
        st.errors ++ [("download error", url)]) ∧
    (∀ (env : Env) (cgi lf repo disp rev : String) (st : St)
      (att : List (Bool × String)) (url cc : String),
      truthyS (fsLookup st.files (pjoin lf disp)) = false → rev ≠ "" →
      tryStrategies env cgi rev (stripSlashBoth repo) = (att, url, some cc) →
      cc ≠ "" → env.saveOk (pjoin lf disp) = false →
      (processFile env cgi lf repo disp (some rev) st).errors =
        st.errors ++ [("save error", url)]) ∧
    (∀ (env : Env) (cgi outDir url repo lrel : String) (rest : List Node) (st : St)
      (fuel : Nat),
      st.queue = (url, repo, lrel) :: rest → url ∉ st.visited → env.pages url = none →
      (stepNode env cgi outDir url repo lrel rest st).errors = st.errors ∧
      runLoop env cgi outDir (fuel + 1) st =
        runLoop env cgi outDir fuel (stepNode env cgi outDir url repo lrel rest st)) ∧
    (∀ (env : Env) (cgi url repo lrel lf : String) (page : Page) (st : St),
      page.menu = none → listingPhase env cgi url repo lrel lf page st = st) := by
  refine ⟨?_, ?_, ?_, ?_, ?_⟩
  · intro env cgi lf repo disp rb st h hr
    rw [processFile_norev env cgi lf repo disp rb st h hr]
  · intro env cgi lf repo disp rev st att url c h hrev ht hc
    rw [processFile_dlfail env cgi lf repo disp rev st att url c h hrev ht hc]
  · intro env cgi lf repo disp rev st att url cc h hrev ht hcc hs
    rw [processFile_saveerr env cgi lf repo disp rev st att url cc h hrev ht hcc hs]
  · intro env cgi outDir url repo lrel rest st fuel hq hv hp
    rw [stepNode_nofetch env cgi outDir url repo lrel rest st hv hp,
      runLoop_cons env cgi outDir fuel st url repo lrel rest hq,
      stepNode_nofetch env cgi outDir url repo lrel rest st hv hp]
    exact ⟨rfl, rfl⟩
  · intro env cgi url repo lrel lf page st hm
    exact listingPhase_nomenu env cgi url repo lrel lf page st hm

/-- Witness for C1 at a concrete download failure (both strategies empty). -/
theorem c1_error_policy_witness :
    (processFile envA "c" "m" "m/d" "d" (some "1.1") St.empty).errors =
      St.empty.errors ++
        [("download error", file_download_url "c" "1.1" (stripSlashBoth "m/d"))] :=
  c1_error_policy.2.1 envA "c" "m" "m/d" "d" "1.1" St.empty
    [(true, markup_view_url "c" "1.1" (stripSlashBoth "m/d")),
     (false, file_download_url "c" "1.1" (stripSlashBoth "m/d"))]
    (file_download_url "c" "1.1" (stripSlashBoth "m/d")) none
    (by decide) (by decide) (by rfl) (by rfl)

/-- Counterexample for C1 as stated: the root listing fetch fails with a
transport error; the run completes and returns, but no `(error kind, error
context)` pair is appended — the error list is empty. -/
theorem c1_error_policy_counterexample :
    envA.pages urlB = none ∧
      runA.map St.fetched = some [urlB] ∧
      runA.map St.errors = some [] := by
  exact ⟨rfl, rfl, rfl⟩


/-! ## Replay (idempotence) machinery -/

theorem ReplayOut_trans {a b c A B C : St} (h1 : ReplayOut a b A B)
    (h2 : ReplayOut b c B C) : ReplayOut a c A C := by
  obtain ⟨q1, v1, f1, d1, s1, sd1, k1⟩ := h1
  obtain ⟨q2, v2, f2, d2, s2, sd2, k2⟩ := h2
  exact ⟨q2, v2, f2.trans f1, d2.trans d1, s2.trans s1, sd2.trans sd1, by omega⟩

/-- A path processed by a file event that did not make it non-empty can never
be non-empty in the final state of a duplicate-free run: a later write would
record the path a second time in the processed-file trace. -/
theorem evolves_final_not_truthy {env : Env} {s final : St} {p : String}
    (hev : Evolves env s final) (hnd : final.fpaths.Nodup)
    (hp : p ∈ s.fpaths) (ht : truthyS (fsLookup s.files p) = false) :
    truthyS (fsLookup final.files p) = false := by
  obtain ⟨t, w, hfp, _, hsub, hiff, _, _⟩ := hev
  by_contra htr
  have htr' : truthyS (fsLookup final.files p) = true := by simpa using htr
  rcases (hiff p).mp htr' with h | h
  · rw [ht] at h; cases h
  · have hpt : p ∈ t := hsub p h
    rw [hfp, List.nodup_append] at hnd
    exact hnd.2.2 hp hpt

theorem processFile_replay (env : Env) (cgi lf repo disp : String) (rb : Option String)
    (st1 st2 final : St)
    (hq : st2.queue = st1.queue) (hv : st2.visited = st1.visited)
    (hf : st2.files = final.files) (hnd : final.fpaths.Nodup)
    (hev : Evolves env (processFile env cgi lf repo disp rb st1) final) :
    ReplayOut st1 (processFile env cgi lf repo disp rb st1) st2
      (processFile env cgi lf repo disp rb st2) := by
  refine processFile_cases env cgi lf repo disp rb st1
    (fun s1' => Evolves env s1' final →
      ReplayOut st1 s1' st2 (processFile env cgi lf repo disp rb st2))
    ?_ ?_ ?_ ?_ ?_ hev
  · -- first run skips: the path stays non-empty, so the second run skips too
    intro hT hev'
    obtain ⟨_, _, _, _, _, hiff, _, _⟩ := hev'
    have hfin : truthyS (fsLookup final.files (pjoin lf disp)) = true :=
      (hiff (pjoin lf disp)).mpr (Or.inl hT)
    have hT2 : truthyS (fsLookup st2.files (pjoin lf disp)) = true := by
      rw [hf]; exact hfin
    rw [processFile_skip env cgi lf repo disp rb st2 hT2]
    refine ⟨hq, hv, rfl, rfl, rfl, rfl, ?_⟩
    show st2.skippedFiles + 1 + st1.savedFiles + st1.skippedFiles =
      st2.skippedFiles + st1.savedFiles + (st1.skippedFiles + 1)
    omega
  · -- first run records a missing revision; nothing was written
    intro hT hr hev'
    have hfin : truthyS (fsLookup final.files (pjoin lf disp)) = false := by
      refine evolves_final_not_truthy hev' hnd ?_ hT
      show pjoin lf disp ∈ st1.fpaths ++ [pjoin lf disp]
      simp
    have hT2 : truthyS (fsLookup st2.files (pjoin lf disp)) = false := by
      rw [hf]; exact hfin
    rw [processFile_norev env cgi lf repo disp rb st2 hT2 hr]
    exact ⟨hq, hv, rfl, rfl, rfl, rfl, rfl⟩
  · -- first run fails to download; the second fails identically
    intro rev att url c hrb hrev hT ht hc hev'
    subst hrb
    have hfin : truthyS (fsLookup final.files (pjoin lf disp)) = false := by
      refine evolves_final_not_truthy hev' hnd ?_ hT
      show pjoin lf disp ∈ st1.fpaths ++ [pjoin lf disp]
      simp
    have hT2 : truthyS (fsLookup st2.files (pjoin lf disp)) = false := by
      rw [hf]; exact hfin
    rw [processFile_dlfail env cgi lf repo disp rev st2 att url c hT2 hrev ht hc]
    exact ⟨hq, hv, rfl, rfl, rfl, rfl, rfl⟩
  · -- first run fails to save; the second fails identically
    intro rev att url cc hrb hrev hT ht hcc hs hev'
    subst hrb
    have hfin : truthyS (fsLookup final.files (pjoin lf disp)) = false := by
      refine evolves_final_not_truthy hev' hnd ?_ hT
      show pjoin lf disp ∈ st1.fpaths ++ [pjoin lf disp]
      simp
    have hT2 : truthyS (fsLookup st2.files (pjoin lf disp)) = false := by
      rw [hf]; exact hfin
    rw [processFile_saveerr env cgi lf repo disp rev st2 att url cc hT2 hrev ht hcc hs]
    exact ⟨hq, hv, rfl, rfl, rfl, rfl, rfl⟩
  · -- first run saves the file; the second run finds it and skips
    intro rev att url cc hrb hrev hT ht hcc hs hev'
    subst hrb
    obtain ⟨_, _, _, _, _, hiff, _, _⟩ := hev'
    have hsk : truthyS (fsLookup ((pjoin lf disp, cc) :: st1.files) (pjoin lf disp)) = true := by
      rw [fsLookup_cons_self]
      simpa [truthyS] using hcc
    have hfin : truthyS (fsLookup final.files (pjoin lf disp)) = true :=
      (hiff (pjoin lf disp)).mpr (Or.inl hsk)
    have hT2 : truthyS (fsLookup st2.files (pjoin lf disp)) = true := by
      rw [hf]; exact hfin
    rw [processFile_skip env cgi lf repo disp (some rev) st2 hT2]
    refine ⟨hq, hv, rfl, rfl, rfl, rfl, ?_⟩
    show st2.skippedFiles + 1 + st1.savedFiles + st1.skippedFiles =
      st2.skippedFiles + (st1.savedFiles + 1) + st1.skippedFiles
    omega


theorem processEntry_replay (env : Env) (cgi u r l lf : String) (e : Entry)
    (st1 st2 final : St)
    (hq : st2.queue = st1.queue) (hv : st2.visited = st1.visited)
    (hf : st2.files = final.files) (hnd : final.fpaths.Nodup)
    (hev : Evolves env (processEntry env cgi u r l lf st1 e) final) :
    ReplayOut st1 (processEntry env cgi u r l lf st1 e) st2
      (processEntry env cgi u r l lf st2 e) := by
  refine processEntry_cases env cgi u r l lf st1 e
    (fun s1' => Evolves env s1' final →
      ReplayOut st1 s1' st2 (processEntry env cgi u r l lf st2 e))
    ?_ ?_ ?_ ?_ ?_ ?_ hev
  · intro hh _
    rw [processEntry_nohref env cgi u r l lf st2 e hh]
    exact ⟨hq, hv, rfl, rfl, rfl, rfl, rfl⟩
  · intro hvv hh hs _
    rw [processEntry_nodot env cgi u r l lf st2 e hvv hh hs]
    exact ⟨hq, hv, rfl, rfl, rfl, rfl, rfl⟩
  · intro hvv hh hs hfil _
    rw [processEntry_chrome env cgi u r l lf st2 e hvv hh hs hfil]
    exact ⟨hq, hv, rfl, rfl, rfl, rfl, rfl⟩
  · intro hvv hh hs hfil hdd htt _
    rw [processEntry_other env cgi u r l lf st2 e hvv hh hs hfil hdd htt]
    exact ⟨hq, hv, rfl, rfl, rfl, rfl, rfl⟩
  · intro hvv hh hs hfil hdd _
    rw [processEntry_dir env cgi u r l lf st2 e hvv hh hs hfil hdd]
    exact ⟨by rw [hq], hv, rfl, rfl, rfl, rfl, rfl⟩
  · intro hvv hh hs hfil htt hev'
    rw [processEntry_txt env cgi u r l lf st2 e hvv hh hs hfil htt]
    exact processFile_replay env cgi lf (env.urljoin r (nodeNameOf hvv))
      (displayedNameOf env hvv) e.revBold st1 st2 final hq hv hf hnd hev'

theorem foldEntries_replay (env : Env) (cgi u r l lf : String) (final : St)
    (hnd : final.fpaths.Nodup) :
    ∀ (es : List Entry) (st1 st2 : St),
      st2.queue = st1.queue → st2.visited = st1.visited → st2.files = final.files →
      Evolves env (es.foldl (processEntry env cgi u r l lf) st1) final →
      ReplayOut st1 (es.foldl (processEntry env cgi u r l lf) st1) st2
        (es.foldl (processEntry env cgi u r l lf) st2) := by
  intro es
  induction es with
  | nil =>
    intro st1 st2 hq hv hf _
    simp only [List.foldl_nil]
    exact ⟨hq, hv, rfl, rfl, rfl, rfl, rfl⟩
  | cons e es ih =>
    intro st1 st2 hq hv hf hev
    simp only [List.foldl_cons] at hev ⊢
    have hev1 : Evolves env (processEntry env cgi u r l lf st1 e) final :=
      evolves_trans (foldEntries_evolves env cgi u r l lf es _) hev
    have h1 := processEntry_replay env cgi u r l lf e st1 st2 final hq hv hf hnd hev1
    have hf' : (processEntry env cgi u r l lf st2 e).files = final.files := by
      rw [h1.2.2.1]; exact hf
    have h2 := ih (processEntry env cgi u r l lf st1 e) (processEntry env cgi u r l lf st2 e)
      h1.1 h1.2.1 hf' hev
    exact ReplayOut_trans h1 h2

/-! ## The three directory-step shapes of `stepNode` -/

theorem stepNode_eq_dirskip (env : Env) (cgi outDir url repo lrel : String)
    (rest : List Node) (st : St) (page : Page)
    (hvis : url ∉ st.visited) (hp : env.pages url = some page)
    (hd1 : rstripSlash (pjoin outDir lrel) ∈ st.dirs) :
    stepNode env cgi outDir url repo lrel rest st =
      listingPhase env cgi url repo lrel (pjoin outDir lrel) page
        { st with queue := rest, visited := url :: st.visited,
                  fetched := st.fetched ++ [url],
                  skippedDirs := st.skippedDirs + 1 } := by
  rw [stepNode_page env cgi outDir url repo lrel rest st page hvis hp]
  dsimp only
  simp only [mkDirStep_skip env (pjoin outDir lrel)
    ({ st with queue := rest, visited := url :: st.visited,
               fetched := st.fetched ++ [url] } : St) hd1]

theorem stepNode_eq_dircreate (env : Env) (cgi outDir url repo lrel : String)
    (rest : List Node) (st : St) (page : Page)
    (hvis : url ∉ st.visited) (hp : env.pages url = some page)
    (hd1 : rstripSlash (pjoin outDir lrel) ∉ st.dirs)
    (hm : env.mkdirOk (rstripSlash (pjoin outDir lrel)) = true) :
    stepNode env cgi outDir url repo lrel rest st =
      listingPhase env cgi url repo lrel (pjoin outDir lrel) page
        { st with queue := rest, visited := url :: st.visited,
                  fetched := st.fetched ++ [url],
                  dirs := rstripSlash (pjoin outDir lrel) :: st.dirs,
                  savedDirs := st.savedDirs + 1 } := by
  rw [stepNode_page env cgi outDir url repo lrel rest st page hvis hp]
  dsimp only
  simp only [mkDirStep_create env (pjoin outDir lrel)
    ({ st with queue := rest, visited := url :: st.visited,
               fetched := st.fetched ++ [url] } : St) hd1 hm]

theorem stepNode_eq_dirfail (env : Env) (cgi outDir url repo lrel : String)
    (rest : List Node) (st : St) (page : Page)
    (hvis : url ∉ st.visited) (hp : env.pages url = some page)
    (hd1 : rstripSlash (pjoin outDir lrel) ∉ st.dirs)
    (hm : env.mkdirOk (rstripSlash (pjoin outDir lrel)) = false) :
    stepNode env cgi outDir url repo lrel rest st =
      { st with queue := rest, visited := url :: st.visited,
                fetched := st.fetched ++ [url] } := by
  rw [stepNode_page env cgi outDir url repo lrel rest st page hvis hp]
  dsimp only
  simp only [mkDirStep_fail env (pjoin outDir lrel)
    ({ st with queue := rest, visited := url :: st.visited,
               fetched := st.fetched ++ [url] } : St) hd1 hm]


theorem stepNode_replay (env : Env) (cgi outDir url repo lrel : String) (rest : List Node)
    (st1 st2 final : St)
    (hvv : st2.visited = st1.visited)
    (hf : st2.files = final.files)
    (hd : st2.dirs = final.dirs)
    (hnd : final.fpaths.Nodup)
    (hev : Evolves env (stepNode env cgi outDir url repo lrel rest st1) final) :
    ReplayOut st1 (stepNode env cgi outDir url repo lrel rest st1) st2
      (stepNode env cgi outDir url repo lrel rest st2) := by
  have hev1 : Evolves env st1 final :=
    evolves_trans (stepNode_evolves env cgi outDir url repo lrel rest st1) hev
  by_cases hvis : url ∈ st1.visited
  · have hvis2 : url ∈ st2.visited := by rw [hvv]; exact hvis
    rw [stepNode_visited env cgi outDir url repo lrel rest st1 hvis,
        stepNode_visited env cgi outDir url repo lrel rest st2 hvis2]
    exact ⟨rfl, hvv, rfl, rfl, rfl, rfl, rfl⟩
  · have hvis2 : url ∉ st2.visited := by rw [hvv]; exact hvis
    cases hp : env.pages url with
    | none =>
      rw [stepNode_nofetch env cgi outDir url repo lrel rest st1 hvis hp,
          stepNode_nofetch env cgi outDir url repo lrel rest st2 hvis2 hp]
      exact ⟨rfl, by rw [hvv], rfl, rfl, rfl, rfl, rfl⟩
    | some page =>
      by_cases hd1 : rstripSlash (pjoin outDir lrel) ∈ st1.dirs
      · have hxf : rstripSlash (pjoin outDir lrel) ∈ final.dirs := by
          obtain ⟨_, _, _, _, _, _, hfor, _⟩ := hev1
          exact hfor _ hd1
        have hd2 : rstripSlash (pjoin outDir lrel) ∈ st2.dirs := by rw [hd]; exact hxf
        have hev2 : Evolves env (listingPhase env cgi url repo lrel (pjoin outDir lrel) page
            { st1 with queue := rest, visited := url :: st1.visited,
                       fetched := st1.fetched ++ [url],
                       skippedDirs := st1.skippedDirs + 1 }) final := by
          rw [← stepNode_eq_dirskip env cgi outDir url repo lrel rest st1 page hvis hp hd1]
          exact hev
        rw [stepNode_eq_dirskip env cgi outDir url repo lrel rest st1 page hvis hp hd1,
            stepNode_eq_dirskip env cgi outDir url repo lrel rest st2 page hvis2 hp hd2]
        cases hm : page.menu with
        | none =>
          rw [listingPhase_nomenu _ _ _ _ _ _ _ _ hm, listingPhase_nomenu _ _ _ _ _ _ _ _ hm]
          exact ⟨rfl, by rw [hvv], rfl, rfl, rfl, rfl, rfl⟩
        | some entries =>
          rw [listingPhase_menu _ _ _ _ _ _ _ entries _ hm] at hev2
          rw [listingPhase_menu _ _ _ _ _ _ _ entries _ hm,
              listingPhase_menu _ _ _ _ _ _ _ entries _ hm]
          exact foldEntries_replay env cgi url repo lrel (pjoin outDir lrel) final hnd entries
            _ _ rfl (by rw [hvv]) hf hev2
      · by_cases hm2 : env.mkdirOk (rstripSlash (pjoin outDir lrel)) = true
        · have hstep1 := stepNode_eq_dircreate env cgi outDir url repo lrel rest st1 page
            hvis hp hd1 hm2
          have hxf : rstripSlash (pjoin outDir lrel) ∈ final.dirs := by
            have hxs : rstripSlash (pjoin outDir lrel) ∈
                (stepNode env cgi outDir url repo lrel rest st1).dirs := by
              rw [hstep1]
              cases hm : page.menu with
              | none =>
                rw [listingPhase_nomenu _ _ _ _ _ _ _ _ hm]
                exact List.mem_cons_self _ _
              | some entries =>
                rw [listingPhase_menu _ _ _ _ _ _ _ entries _ hm,
                    (foldEntries_keeps env cgi url repo lrel (pjoin outDir lrel) entries _).2.2.1]
                exact List.mem_cons_self _ _
            obtain ⟨_, _, _, _, _, _, hfor, _⟩ := hev
            exact hfor _ hxs
          have hd2 : rstripSlash (pjoin outDir lrel) ∈ st2.dirs := by rw [hd]; exact hxf
          have hev2 : Evolves env (listingPhase env cgi url repo lrel (pjoin outDir lrel) page
              { st1 with queue := rest, visited := url :: st1.visited,
                         fetched := st1.fetched ++ [url],
                         dirs := rstripSlash (pjoin outDir lrel) :: st1.dirs,
                         savedDirs := st1.savedDirs + 1 }) final := by
            rw [← hstep1]; exact hev
          rw [hstep1, stepNode_eq_dirskip env cgi outDir url repo lrel rest st2 page hvis2 hp hd2]
          cases hm : page.menu with
          | none =>
            rw [listingPhase_nomenu _ _ _ _ _ _ _ _ hm, listingPhase_nomenu _ _ _ _ _ _ _ _ hm]
            exact ⟨rfl, by rw [hvv], rfl, rfl, rfl, rfl, rfl⟩
          | some entries =>
            rw [listingPhase_menu _ _ _ _ _ _ _ entries _ hm] at hev2
            rw [listingPhase_menu _ _ _ _ _ _ _ entries _ hm,
                listingPhase_menu _ _ _ _ _ _ _ entries _ hm]
            exact foldEntries_replay env cgi url repo lrel (pjoin outDir lrel) final hnd entries
              _ _ rfl (by rw [hvv]) hf hev2
        · have hm2' : env.mkdirOk (rstripSlash (pjoin outDir lrel)) = false := by
            simpa using hm2
          have hd2 : rstripSlash (pjoin outDir lrel) ∉ st2.dirs := by
            rw [hd]
            intro hcon
            obtain ⟨_, _, _, _, _, _, _, hback⟩ := hev1
            rcases hback _ hcon with h | h
            · exact hd1 h
            · rw [hm2'] at h; cases h
          rw [stepNode_eq_dirfail env cgi outDir url repo lrel rest st1 page hvis hp hd1 hm2',
              stepNode_eq_dirfail env cgi outDir url repo lrel rest st2 page hvis2 hp hd2 hm2']
          exact ⟨rfl, by rw [hvv], rfl, rfl, rfl, rfl, rfl⟩


theorem runLoop_replay (env : Env) (cgi outDir : String) :
    ∀ (fuel : Nat) (st1 final st2 : St),
      runLoop env cgi outDir fuel st1 = some final →
      final.fpaths.Nodup →
      st2.queue = st1.queue → st2.visited = st1.visited →
      st2.files = final.files → st2.dirs = final.dirs →
      ∃ st2', runLoop env cgi outDir fuel st2 = some st2' ∧
        st2'.files = final.files ∧ st2'.dirs = final.dirs ∧
        st2'.savedFiles = st2.savedFiles ∧
        st2'.skippedFiles + st1.savedFiles + st1.skippedFiles =
          st2.skippedFiles + final.savedFiles + final.skippedFiles := by
  intro fuel
  induction fuel with
  | zero => intro st1 final st2 h; cases h
  | succ n ih =>
    intro st1 final st2 h hnd hq hv hf hd
    cases hq1 : st1.queue with
    | nil =>
      rw [runLoop_nil env cgi outDir n st1 hq1] at h
      obtain rfl := Option.some_inj.mp h
      have hq2 : st2.queue = [] := by rw [hq, hq1]
      exact ⟨st2, runLoop_nil env cgi outDir n st2 hq2, hf, hd, rfl, by omega⟩
    | cons nd rest =>
      obtain ⟨url, repo, lrel⟩ := nd
      rw [runLoop_cons env cgi outDir n st1 url repo lrel rest hq1] at h
      have hq2 : st2.queue = (url, repo, lrel) :: rest := by rw [hq, hq1]
      have hev := runLoop_evolves env cgi outDir n _ final h
      obtain ⟨hq', hv', hf', hd', hs', hsd', hk'⟩ :=
        stepNode_replay env cgi outDir url repo lrel rest st1 st2 final hv hf hd hnd hev
      have hf'' : (stepNode env cgi outDir url repo lrel rest st2).files = final.files := by
        rw [hf']; exact hf
      have hd'' : (stepNode env cgi outDir url repo lrel rest st2).dirs = final.dirs := by
        rw [hd']; exact hd
      obtain ⟨st2', hrun2, hfl, hdl, hsl, hkl⟩ := ih _ final _ h hnd hq' hv' hf'' hd''
      refine ⟨st2', ?_, hfl, hdl, ?_, ?_⟩
      · rw [runLoop_cons env cgi outDir n st2 url repo lrel rest hq2]
        exact hrun2
      · rw [hsl, hs']
      · omega

/-- Claim C2 (amended): re-running the traversal against the same oracle over
the first run's resulting filesystem leaves the on-disk tree unchanged and
saves nothing; the second run's `files_skipped` equals the first run's
`files_saved` plus `files_skipped`, provided no two processed file entries of
the first run resolved to the same local file path. -/
theorem c2_idempotent_rerun :
    ∀ (env : Env) (fuel : Nat) (full_url : String) (files0 : List (String × String))
      (dirs0 : List String) (r1 : St),
      fetch_latest_snapshot env fuel full_url files0 dirs0 = some r1 →
      r1.fpaths.Nodup →
      ∃ r2, fetch_latest_snapshot env fuel full_url r1.files r1.dirs = some r2 ∧
        r2.files = r1.files ∧ r2.dirs = r1.dirs ∧
        r2.savedFiles = 0 ∧
        r2.skippedFiles = r1.savedFiles + r1.skippedFiles := by
  intro env fuel full_url files0 dirs0 r1 h hnd
  simp only [fetch_latest_snapshot] at h ⊢
  cases hinit : initRun env full_url files0 dirs0 with
  | none => rw [hinit] at h; cases h
  | some tpl =>
    obtain ⟨cgi, outDir, st0⟩ := tpl
    rw [hinit] at h
    obtain ⟨hvis0, hfet0, hfp0, hw0, hsf0, hskf0, hfiles0, hdir0, p0, p1, ps, hsp, hcgi,
      hout, hne, hshape⟩ := initRun_proj env full_url files0 dirs0 cgi outDir st0 hinit
    have hd1 : rstripSlash outDir ∈ r1.dirs := by
      have hevr := runLoop_evolves env cgi outDir fuel st0 r1 h
      obtain ⟨_, _, _, _, _, _, hfor, _⟩ := hevr
      exact hfor _ hdir0
    have hinit2 : initRun env full_url r1.files r1.dirs =
        some (cgi, outDir, { st0 with files := r1.files, dirs := r1.dirs }) := by
      rw [hshape]
      subst hcgi
      subst hout
      exact initRun_build env full_url r1.files r1.dirs p0 p1 ps hsp hne hd1
    rw [hinit2]
    obtain ⟨r2, hrun2, hf2, hd2, hs2, hk2⟩ :=
      runLoop_replay env cgi outDir fuel st0 r1
        ({ st0 with files := r1.files, dirs := r1.dirs } : St) h hnd rfl rfl rfl rfl
    refine ⟨r2, hrun2, hf2, hd2, ?_, ?_⟩
    · rw [hs2]
      exact hsf0
    · have hx : ({ st0 with files := r1.files, dirs := r1.dirs } : St).skippedFiles =
          st0.skippedFiles := rfl
      have hy : st0.savedFiles = 0 := hsf0
      have hz : st0.skippedFiles = 0 := hskf0
      omega


/-- Witness for C2 at the concrete single-file oracle: the second run saves
nothing and skips exactly the file the first run saved. -/
theorem c2_idempotent_rerun_witness :
    ∃ r2, fetch_latest_snapshot envB 3 urlB stB1.files stB1.dirs = some r2 ∧
      r2.files = stB1.files ∧ r2.dirs = stB1.dirs ∧
      r2.savedFiles = 0 ∧
      r2.skippedFiles = stB1.savedFiles + stB1.skippedFiles :=
  c2_idempotent_rerun envB 3 urlB [] [] stB1 (by rfl) (by decide)

/-- Counterexample for C2 as stated: two file entries (`./a?` and `./a*`)
sanitise to the same local name, so the first run saves one and skips the
other; the second run then skips two files while the first run saved one —
`files_skipped` of the second run differs from `files_saved` of the first. -/
theorem c2_idempotent_rerun_counterexample :
    runC2a.map St.savedFiles = some 1 ∧
      runC2b.map St.skippedFiles = some 2 ∧
      runC2b.map St.skippedFiles ≠ runC2a.map St.savedFiles ∧
      runC2b.map St.savedFiles = some 0 := by
  refine ⟨rfl, rfl, ?_, rfl⟩
  decide

end CvswebExtract
